import Mathlib

/-!
Verification of the mpesa-golang-sdk authenticated-request core.

The Go sources are shallowly embedded: pure helpers become Lean functions,
the token cache becomes explicit state passing, the HTTP transport becomes an
explicit outcome parameter, `time.Now()` becomes an explicit clock parameter
(natural-number seconds), and Go byte slices become `List Nat` with every
element below 256.  `encoding/json` is embedded by an executable JSON
syntax/parser/printer below; JSON numbers keep their source literal (Go's
float64 view of `interface\x7b\x7d` values is never observed by the properties
proved here).
-/

namespace MpesaSdk

/-- Decimal digit character for a value below ten. -/
def digitChar (n : Nat) : Char := Char.ofNat (48 + n)

/-- Decimal rendering of a natural number, mirroring Go fmt `%d` for unsigned values. -/
def natChars (n : Nat) : List Char :=
  if n < 10 then [digitChar n]
  else natChars (n / 10) ++ [digitChar (n % 10)]
decreasing_by exact Nat.div_lt_self (by omega) (by omega)

/-- Decimal rendering of a natural number as a string. -/
def natString (n : Nat) : String := String.mk (natChars n)

/-- Decimal rendering of an integer, mirroring Go `strconv.FormatInt`. -/
def intChars : Int → List Char
  | Int.ofNat n => natChars n
  | Int.negSucc n => '-' :: natChars (n + 1)

/-- Whether a character is a decimal digit. -/
def isDigitChar (c : Char) : Bool := 48 ≤ c.toNat && c.toNat ≤ 57

/-- Numeric value of a decimal digit character. -/
def digitVal (c : Char) : Nat := c.toNat - 48

/-- Value of a list of decimal digit characters, most significant first. -/
def digitsToNat (ds : List Char) : Nat := ds.foldl (fun a c => a * 10 + digitVal c) 0

/-- Value of a big-endian byte list. -/
def bytesToNat (bs : List Nat) : Nat := bs.foldl (fun a b => a * 256 + b) 0

/-- Fixed-width big-endian byte rendering of a natural number,
mirroring Go `big.Int.FillBytes`. -/
def natToBytes : Nat → Nat → List Nat
  | 0, _ => []
  | k + 1, n => natToBytes k (n / 256) ++ [n % 256]

/-- UTF-8 encoding of one unicode scalar value. -/
def utf8Char (c : Char) : List Nat :=
  let n := c.toNat
  if n < 128 then [n]
  else if n < 2048 then [192 + n / 64, 128 + n % 64]
  else if n < 65536 then [224 + n / 4096, 128 + n / 64 % 64, 128 + n % 64]
  else [240 + n / 262144, 128 + n / 4096 % 64, 128 + n / 64 % 64, 128 + n % 64]

/-- UTF-8 encoding of a string, the embedding of Go `[]byte(s)`. -/
def utf8Bytes (s : String) : List Nat := (s.data.map utf8Char).flatten

/-- Character of the standard base64 alphabet at an index below 64. -/
def base64Table (n : Nat) : Char :=
  if n < 26 then Char.ofNat (65 + n)
  else if n < 52 then Char.ofNat (97 + (n - 26))
  else if n < 62 then Char.ofNat (48 + (n - 52))
  else if n = 62 then '+'
  else '/'

/-- Standard base64 encoding with padding, the embedding of
Go `base64.StdEncoding.EncodeToString`. -/
def base64Encode : List Nat → List Char
  | [] => []
  | [b1] => [base64Table (b1 / 4), base64Table (b1 % 4 * 16), '=', '=']
  | [b1, b2] =>
    [base64Table (b1 / 4), base64Table (b1 % 4 * 16 + b2 / 16), base64Table (b2 % 16 * 4), '=']
  | b1 :: b2 :: b3 :: rest =>
    base64Table (b1 / 4) :: base64Table (b1 % 4 * 16 + b2 / 16) ::
      base64Table (b2 % 16 * 4 + b3 / 64) :: base64Table (b3 % 64) :: base64Encode rest

/-- Standard base64 encoding with padding, as a string. -/
def base64EncodeString (bs : List Nat) : String := String.mk (base64Encode bs)

/-- Index of a character in the standard base64 alphabet. -/
def base64Val (c : Char) : Option Nat :=
  let n := c.toNat
  if 65 ≤ n ∧ n ≤ 90 then some (n - 65)
  else if 97 ≤ n ∧ n ≤ 122 then some (n - 97 + 26)
  else if 48 ≤ n ∧ n ≤ 57 then some (n - 48 + 52)
  else if c = '+' then some 62
  else if c = '/' then some 63
  else none

/-- Standard base64 decoding with padding, the embedding of
Go `base64.StdEncoding.DecodeString`. -/
def base64DecodeChars : List Char → Option (List Nat)
  | [] => some []
  | c1 :: c2 :: c3 :: c4 :: rest =>
    match base64Val c1, base64Val c2 with
    | some v1, some v2 =>
      if c3 = '=' then
        if c4 = '=' then
          if rest = [] ∧ v2 % 16 = 0 then some [v1 * 4 + v2 / 16] else none
        else none
      else
        match base64Val c3 with
        | some v3 =>
          if c4 = '=' then
            if rest = [] ∧ v3 % 4 = 0 then some [v1 * 4 + v2 / 16, v2 % 16 * 16 + v3 / 4]
            else none
          else
            match base64Val c4, base64DecodeChars rest with
            | some v4, some bs =>
              some ((v1 * 4 + v2 / 16) :: (v2 % 16 * 16 + v3 / 4) :: (v3 % 4 * 64 + v4) :: bs)
            | _, _ => none
        | none => none
    | _, _ => none
  | _ => none

/-- Standard base64 decoding of a string. -/
def base64Decode (s : String) : Option (List Nat) := base64DecodeChars s.data

mutual

/-- JSON values.  Numbers keep the source literal so that printing and
re-parsing is lossless, which is all the SDK ever relies on. -/
inductive Json where
  | null : Json
  | bool (b : Bool) : Json
  | num (lit : String) : Json
  | str (s : String) : Json
  | arr (elems : JsonList) : Json
  | obj (fields : JsonFields) : Json

/-- A sequence of JSON array elements. -/
inductive JsonList where
  | nil : JsonList
  | cons (hd : Json) (tl : JsonList) : JsonList

/-- A sequence of JSON object members in source order. -/
inductive JsonFields where
  | nil : JsonFields
  | fcons (key : String) (val : Json) (tl : JsonFields) : JsonFields

end

/-- Value of a hexadecimal digit character, if any. -/
def hexVal (c : Char) : Option Nat :=
  if 48 ≤ c.toNat ∧ c.toNat ≤ 57 then some (c.toNat - 48)
  else if 97 ≤ c.toNat ∧ c.toNat ≤ 102 then some (c.toNat - 97 + 10)
  else if 65 ≤ c.toNat ∧ c.toNat ≤ 70 then some (c.toNat - 65 + 10)
  else none

/-- Lower-case hexadecimal digit character for a value below sixteen. -/
def hexChar (n : Nat) : Char :=
  if n < 10 then digitChar n else Char.ofNat (97 + (n - 10))

/-- Escape one character the way Go `encoding/json` does inside string
literals (without the optional HTML escaping, which never changes the
decoded value). -/
def escChar (c : Char) : List Char :=
  if c = '"' then ['\\', '"']
  else if c = '\\' then ['\\', '\\']
  else if c = '\n' then ['\\', 'n']
  else if c = '\r' then ['\\', 'r']
  else if c = '\t' then ['\\', 't']
  else if c.toNat < 32 then
    ['\\', 'u', '0', '0', digitChar (c.toNat / 16), hexChar (c.toNat % 16)]
  else [c]

/-- Escaped body of a JSON string literal followed by the closing quote. -/
def escapeString : List Char → List Char
  | [] => ['"']
  | c :: cs => escChar c ++ escapeString cs

mutual

/-- Compact printing of a JSON value, the embedding of Go `json.Marshal`
output for the values this development constructs. -/
def printChars : Json → List Char
  | .null => ['n', 'u', 'l', 'l']
  | .bool false => ['f', 'a', 'l', 's', 'e']
  | .bool true => ['t', 'r', 'u', 'e']
  | .num lit => lit.data
  | .str s => '"' :: escapeString s.data
  | .arr xs => '[' :: printElems xs
  | .obj fs => '\x7b' :: printMembers fs

/-- Printing of array elements including the closing bracket. -/
def printElems : JsonList → List Char
  | .nil => [']']
  | .cons v l => printChars v ++ printElemsRest l

/-- Printing of the remaining array elements after the first. -/
def printElemsRest : JsonList → List Char
  | .nil => [']']
  | .cons v l => ',' :: (printChars v ++ printElemsRest l)

/-- Printing of object members including the closing brace. -/
def printMembers : JsonFields → List Char
  | .nil => ['\x7d']
  | .fcons k v fs => ('"' :: escapeString k.data) ++ (':' :: printChars v) ++ printMembersRest fs

/-- Printing of the remaining object members after the first. -/
def printMembersRest : JsonFields → List Char
  | .nil => ['\x7d']
  | .fcons k v fs =>
    ',' :: (('"' :: escapeString k.data) ++ (':' :: printChars v) ++ printMembersRest fs)

end

/-- Compact printing of a JSON value as a string. -/
def printJson (v : Json) : String := String.mk (printChars v)

/-- Whether a character is JSON insignificant whitespace. -/
def isWsChar (c : Char) : Bool := c = ' ' || c = '\t' || c = '\n' || c = '\r'

/-- Drop leading JSON whitespace. -/
def skipWs : List Char → List Char
  | [] => []
  | c :: cs => if isWsChar c then skipWs cs else c :: cs

mutual

/-- Parse the body of a JSON string literal up to and including the closing
quote, decoding escape sequences.  Lone surrogate escapes are rejected
rather than replaced; the SDK never feeds them. -/
def parseStringChars : List Char → Option (List Char × List Char)
  | [] => none
  | c :: cs =>
    if c = '"' then some ([], cs)
    else if c = '\\' then parseEscape cs
    else if c.toNat < 32 then none
    else (parseStringChars cs).map (fun r => (c :: r.1, r.2))

/-- Parse what follows a backslash inside a JSON string literal. -/
def parseEscape : List Char → Option (List Char × List Char)
  | [] => none
  | c :: cs =>
    if c = '"' then (parseStringChars cs).map (fun r => ('"' :: r.1, r.2))
    else if c = '\\' then (parseStringChars cs).map (fun r => ('\\' :: r.1, r.2))
    else if c = '/' then (parseStringChars cs).map (fun r => ('/' :: r.1, r.2))
    else if c = 'b' then (parseStringChars cs).map (fun r => (Char.ofNat 8 :: r.1, r.2))
    else if c = 'f' then (parseStringChars cs).map (fun r => (Char.ofNat 12 :: r.1, r.2))
    else if c = 'n' then (parseStringChars cs).map (fun r => ('\n' :: r.1, r.2))
    else if c = 'r' then (parseStringChars cs).map (fun r => ('\r' :: r.1, r.2))
    else if c = 't' then (parseStringChars cs).map (fun r => ('\t' :: r.1, r.2))
    else if c = 'u' then
      match cs with
      | h1 :: h2 :: h3 :: h4 :: cs' =>
        match hexVal h1, hexVal h2, hexVal h3, hexVal h4 with
        | some v1, some v2, some v3, some v4 =>
          let n := ((v1 * 16 + v2) * 16 + v3) * 16 + v4
          if 55296 ≤ n ∧ n ≤ 57343 then none
          else (parseStringChars cs').map (fun r => (Char.ofNat n :: r.1, r.2))
        | _, _, _, _ => none
      | _ => none
    else none

end

/-- Characters that may extend or follow within a number literal; a JSON
number token ends exactly when the next character is not one of these. -/
def numCont (c : Char) : Bool :=
  isDigitChar c || c = '.' || c = 'e' || c = 'E' || c = '+' || c = '-'

/-- Split off a maximal run of decimal digits. -/
def takeDigits : List Char → List Char × List Char
  | [] => ([], [])
  | c :: cs =>
    if isDigitChar c then
      let r := takeDigits cs
      (c :: r.1, r.2)
    else ([], c :: cs)

/-- Parse the integer part of a JSON number after the optional sign:
either a single zero or a nonzero digit followed by more digits. -/
def parseIntPart : List Char → Option (List Char × List Char)
  | [] => none
  | c :: cs =>
    if c = '0' then some (['0'], cs)
    else if isDigitChar c then
      let r := takeDigits cs
      some (c :: r.1, r.2)
    else none

/-- Parse the optional fraction part of a JSON number. -/
def parseFracPart : List Char → Option (List Char × List Char)
  | [] => some ([], [])
  | c :: cs =>
    if c = '.' then
      match takeDigits cs with
      | ([], _) => none
      | (ds, rest) => some ('.' :: ds, rest)
    else some ([], c :: cs)

/-- Parse the optional exponent part of a JSON number. -/
def parseExpPart : List Char → Option (List Char × List Char)
  | e :: cs =>
    if e = 'e' ∨ e = 'E' then
      match cs with
      | s :: cs' =>
        if s = '+' ∨ s = '-' then
          match takeDigits cs' with
          | ([], _) => none
          | (ds, rest) => some (e :: s :: ds, rest)
        else
          match takeDigits (s :: cs') with
          | ([], _) => none
          | (ds, rest) => some (e :: ds, rest)
      | [] => none
    else some ([], e :: cs)
  | [] => some ([], [])

/-- Parse a JSON number token, returning its literal and the rest. -/
def parseNumberBody (cs : List Char) : Option (List Char × List Char) :=
  let sc : List Char × List Char :=
    match cs with
    | [] => ([], [])
    | c :: cs' => if c = '-' then (['-'], cs') else ([], c :: cs')
  let sign := sc.1
  let cs1 := sc.2
  match parseIntPart cs1 with
  | none => none
  | some (ip, cs2) =>
    match parseFracPart cs2 with
    | none => none
    | some (fp, cs3) =>
      match parseExpPart cs3 with
      | none => none
      | some (ep, cs4) => some (sign ++ ip ++ fp ++ ep, cs4)

mutual

/-- Parse one JSON value.  The input is assumed to start with a
non-whitespace character; `fuel` bounds the recursion depth and is
irrelevant once large enough. -/
def parseValue : Nat → List Char → Option (Json × List Char)
  | 0, _ => none
  | _ + 1, [] => none
  | fuel + 1, c :: cs =>
    if c = 'n' then
      match cs with
      | 'u' :: 'l' :: 'l' :: rest => some (.null, rest)
      | _ => none
    else if c = 't' then
      match cs with
      | 'r' :: 'u' :: 'e' :: rest => some (.bool true, rest)
      | _ => none
    else if c = 'f' then
      match cs with
      | 'a' :: 'l' :: 's' :: 'e' :: rest => some (.bool false, rest)
      | _ => none
    else if c = '"' then
      (parseStringChars cs).map (fun r => (.str (String.mk r.1), r.2))
    else if c = '[' then parseElems fuel (skipWs cs)
    else if c = '\x7b' then parseMembers fuel (skipWs cs)
    else
      match parseNumberBody (c :: cs) with
      | some (lit, rest) => some (.num (String.mk lit), rest)
      | none => none

/-- Parse the elements of a JSON array after the opening bracket,
with leading whitespace already dropped. -/
def parseElems : Nat → List Char → Option (Json × List Char)
  | 0, _ => none
  | _ + 1, [] => none
  | fuel + 1, c :: cs =>
    if c = ']' then some (.arr .nil, cs)
    else
      match parseValue fuel (c :: cs) with
      | none => none
      | some (v, rest) =>
        match parseElemsRest fuel (skipWs rest) with
        | none => none
        | some (l, rest') => some (.arr (.cons v l), rest')

/-- Parse "," value ... "]" after an array element, with leading
whitespace already dropped. -/
def parseElemsRest : Nat → List Char → Option (JsonList × List Char)
  | 0, _ => none
  | _ + 1, [] => none
  | fuel + 1, c :: cs =>
    if c = ']' then some (.nil, cs)
    else if c = ',' then
      match parseValue fuel (skipWs cs) with
      | none => none
      | some (v, rest) =>
        match parseElemsRest fuel (skipWs rest) with
        | none => none
        | some (l, rest') => some (.cons v l, rest')
    else none

/-- Parse the members of a JSON object after the opening brace,
with leading whitespace already dropped. -/
def parseMembers : Nat → List Char → Option (Json × List Char)
  | 0, _ => none
  | _ + 1, [] => none
  | fuel + 1, c :: cs =>
    if c = '\x7d' then some (.obj .nil, cs)
    else if c = '"' then
      match parseStringChars cs with
      | none => none
      | some (k, rest) =>
        match skipWs rest with
        | ':' :: rest' =>
          match parseValue fuel (skipWs rest') with
          | none => none
          | some (v, rest'') =>
            match parseMembersRest fuel (skipWs rest'') with
            | none => none
            | some (fs, rest''') => some (.obj (.fcons (String.mk k) v fs), rest''')
        | _ => none
    else none

/-- Parse "," member ... close-brace after an object member, with leading
whitespace already dropped. -/
def parseMembersRest : Nat → List Char → Option (JsonFields × List Char)
  | 0, _ => none
  | _ + 1, [] => none
  | fuel + 1, c :: cs =>
    if c = '\x7d' then some (.nil, cs)
    else if c = ',' then
      match skipWs cs with
      | '"' :: cs' =>
        match parseStringChars cs' with
        | none => none
        | some (k, rest) =>
          match skipWs rest with
          | ':' :: rest' =>
            match parseValue fuel (skipWs rest') with
            | none => none
            | some (v, rest'') =>
              match parseMembersRest fuel (skipWs rest'') with
              | none => none
              | some (fs, rest''') => some (.fcons (String.mk k) v fs, rest''')
          | _ => none
      | _ => none
    else none

end

/-- Whether a character sequence is exactly one JSON number literal. -/
def isValidNumLit (cs : List Char) : Bool :=
  match parseNumberBody cs with
  | some (_, []) => true
  | _ => false

mutual

/-- Well-formedness of a JSON value: every number literal is valid JSON
number syntax.  Parser output is well formed, and printing a well-formed
value re-parses to it. -/
def Json.wf : Json → Bool
  | .null => true
  | .bool _ => true
  | .num lit => isValidNumLit lit.data
  | .str _ => true
  | .arr xs => JsonList.wf xs
  | .obj fs => JsonFields.wf fs

/-- Well-formedness of array elements. -/
def JsonList.wf : JsonList → Bool
  | .nil => true
  | .cons v l => Json.wf v && JsonList.wf l

/-- Well-formedness of object members. -/
def JsonFields.wf : JsonFields → Bool
  | .nil => true
  | .fcons _ v fs => Json.wf v && JsonFields.wf fs

end

/-- Decode the first JSON value of a string, ignoring anything after it:
the embedding of `json.NewDecoder(r).Decode(&v)` as used on response bodies. -/
def parseJsonPrefix (s : String) : Option Json :=
  match parseValue (2 * s.data.length + 2) (skipWs s.data) with
  | some (v, _) => some v
  | none => none

/-- Decode a string holding exactly one JSON value (with surrounding
whitespace): the embedding of `json.Unmarshal`. -/
def jsonUnmarshal (s : String) : Option Json :=
  match parseValue (2 * s.data.length + 2) (skipWs s.data) with
  | some (v, rest) => if (skipWs rest).isEmpty then some v else none
  | none => none

/-- AuthorizationResponse is returned when trying to authenticate the app
using provided credentials; `setAt` is the internal cache timestamp
(seconds). -/
structure AuthorizationResponse where
  AccessToken : String
  ExpiresIn : String
  setAt : Nat
deriving Repr, DecidableEq

/-- The zero value of `AuthorizationResponse`. -/
def emptyAuth : AuthorizationResponse := ⟨"", "", 0⟩

/-- GeneralRequestResponse is the response sent back by mpesa after
initiating a request; all fields are optional strings on the wire. -/
structure GeneralRequestResponse where
  CheckoutRequestID : String
  ConversationID : String
  CustomerMessage : String
  ErrorCode : String
  ErrorMessage : String
  MerchantRequestID : String
  OriginatorConversationID : String
  ResponseCode : String
  ResponseDescription : String
  ResultCode : String
  ResultDesc : String
  RequestID : String
deriving Repr, DecidableEq

/-- The zero value of `GeneralRequestResponse`. -/
def emptyResponse : GeneralRequestResponse :=
  ⟨"", "", "", "", "", "", "", "", "", "", "", ""⟩

/-- One metadata item of a checkout callback; `Value` is an arbitrary JSON
value (Go `interface\x7b\x7d`), kept as parsed. -/
structure STKCallbackItem where
  Name : String
  Value : Json

/-- Callback metadata; the Go slice is `Option`-wrapped so that a nil slice
(decoded from JSON null or absent) and an empty one stay distinguishable,
matching Go marshaling. -/
structure STKCallbackMetadata where
  Item : Option (List STKCallbackItem)

/-- Payload of a checkout callback. -/
structure STKCallback where
  MerchantRequestID : String
  CheckoutRequestID : String
  ResultCode : Int
  ResultDesc : String
  CallbackMetadata : STKCallbackMetadata

/-- Body wrapper of a checkout callback. -/
structure STKPushCallbackBody where
  STKCallback : STKCallback

/-- STKPushCallback is the response sent to the callback URL after making
the STKPushRequest. -/
structure STKPushCallback where
  Body : STKPushCallbackBody

/-- ASCII lower-casing of one character. -/
def lowerChar (c : Char) : Char :=
  if 65 ≤ c.toNat ∧ c.toNat ≤ 90 then Char.ofNat (c.toNat + 32) else c

/-- Case-insensitive JSON key matching, the embedding of the
`encoding/json` field-name fallback (ASCII fold, which covers every key
this SDK declares). -/
def keyMatch (k target : String) : Bool :=
  k.data.map lowerChar == target.data.map lowerChar

/-- Decode a JSON value into a string field: a string overwrites, null
leaves the current value, anything else is a type error. -/
def decodeStringField (cur : String) : Json → Option String
  | .str s => some s
  | .null => some cur
  | _ => none

/-- Whether all characters are decimal digits. -/
def allDigits (cs : List Char) : Bool := cs.all isDigitChar

/-- Integer value of a number literal, the embedding of
`strconv.ParseInt` as used by `encoding/json` for int fields. -/
def decodeIntLit : List Char → Option Int
  | [] => none
  | c :: ds =>
    if c = '-' then
      if ds.isEmpty || !allDigits ds then none else some (-(digitsToNat ds : Int))
    else if allDigits (c :: ds) then some (digitsToNat (c :: ds) : Int)
    else none

/-- Decode a JSON value into an int field. -/
def decodeIntField (cur : Int) : Json → Option Int
  | .num lit => decodeIntLit lit.data
  | .null => some cur
  | _ => none

/-- Apply one object member to an `AuthorizationResponse` under decoding. -/
def authApplyField (r : AuthorizationResponse) (k : String) (v : Json) :
    Option AuthorizationResponse :=
  if keyMatch k "access_token" then
    (decodeStringField r.AccessToken v).map (fun s => { r with AccessToken := s })
  else if keyMatch k "expires_in" then
    (decodeStringField r.ExpiresIn v).map (fun s => { r with ExpiresIn := s })
  else some r

/-- Fold the members of a JSON object into an `AuthorizationResponse`. -/
def authApplyFields (r : AuthorizationResponse) : JsonFields → Option AuthorizationResponse
  | .nil => some r
  | .fcons k v fs =>
    match authApplyField r k v with
    | none => none
    | some r' => authApplyFields r' fs

/-- Decode a JSON value into an `AuthorizationResponse`. -/
def decodeAuthJson : Json → Option AuthorizationResponse
  | .null => some emptyAuth
  | .obj fs => authApplyFields emptyAuth fs
  | _ => none

/-- Embedding of `json.NewDecoder(res.Body).Decode(&response)` for the
authorization response. -/
def decodeAuthorizationResponse (body : String) : Option AuthorizationResponse :=
  (parseJsonPrefix body).bind decodeAuthJson

/-- Apply one object member to a `GeneralRequestResponse` under decoding. -/
def envApplyField (r : GeneralRequestResponse) (k : String) (v : Json) :
    Option GeneralRequestResponse :=
  if keyMatch k "CheckoutRequestID" then
    (decodeStringField r.CheckoutRequestID v).map (fun s => { r with CheckoutRequestID := s })
  else if keyMatch k "ConversationID" then
    (decodeStringField r.ConversationID v).map (fun s => { r with ConversationID := s })
  else if keyMatch k "CustomerMessage" then
    (decodeStringField r.CustomerMessage v).map (fun s => { r with CustomerMessage := s })
  else if keyMatch k "errorCode" then
    (decodeStringField r.ErrorCode v).map (fun s => { r with ErrorCode := s })
  else if keyMatch k "errorMessage" then
    (decodeStringField r.ErrorMessage v).map (fun s => { r with ErrorMessage := s })
  else if keyMatch k "MerchantRequestID" then
    (decodeStringField r.MerchantRequestID v).map (fun s => { r with MerchantRequestID := s })
  else if keyMatch k "OriginatorConversationID" then
    (decodeStringField r.OriginatorConversationID v).map
      (fun s => { r with OriginatorConversationID := s })
  else if keyMatch k "ResponseCode" then
    (decodeStringField r.ResponseCode v).map (fun s => { r with ResponseCode := s })
  else if keyMatch k "ResponseDescription" then
    (decodeStringField r.ResponseDescription v).map (fun s => { r with ResponseDescription := s })
  else if keyMatch k "ResultCode" then
    (decodeStringField r.ResultCode v).map (fun s => { r with ResultCode := s })
  else if keyMatch k "ResultDesc" then
    (decodeStringField r.ResultDesc v).map (fun s => { r with ResultDesc := s })
  else if keyMatch k "requestId" then
    (decodeStringField r.RequestID v).map (fun s => { r with RequestID := s })
  else some r

/-- Fold the members of a JSON object into a `GeneralRequestResponse`. -/
def envApplyFields (r : GeneralRequestResponse) : JsonFields → Option GeneralRequestResponse
  | .nil => some r
  | .fcons k v fs =>
    match envApplyField r k v with
    | none => none
    | some r' => envApplyFields r' fs

/-- Decode a JSON value into a `GeneralRequestResponse`. -/
def decodeEnvJson : Json → Option GeneralRequestResponse
  | .null => some emptyResponse
  | .obj fs => envApplyFields emptyResponse fs
  | _ => none

/-- Embedding of `json.NewDecoder(res.Body).Decode(&resp)` for the generic
response envelope. -/
def decodeGeneralRequestResponse (body : String) : Option GeneralRequestResponse :=
  (parseJsonPrefix body).bind decodeEnvJson

/-- Apply one object member to an `STKCallbackItem` under decoding;
`Value` accepts any JSON value. -/
def stkItemApplyField (it : STKCallbackItem) (k : String) (v : Json) : Option STKCallbackItem :=
  if keyMatch k "Name" then
    (decodeStringField it.Name v).map (fun s => { it with Name := s })
  else if keyMatch k "Value" then some { it with Value := v }
  else some it

/-- Fold the members of a JSON object into an `STKCallbackItem`. -/
def stkItemApplyFields (it : STKCallbackItem) : JsonFields → Option STKCallbackItem
  | .nil => some it
  | .fcons k v fs =>
    match stkItemApplyField it k v with
    | none => none
    | some it' => stkItemApplyFields it' fs

/-- The zero value of `STKCallbackItem`. -/
def emptyItem : STKCallbackItem := ⟨"", .null⟩

/-- Decode a JSON value into an `STKCallbackItem`. -/
def decodeItemJson : Json → Option STKCallbackItem
  | .null => some emptyItem
  | .obj fs => stkItemApplyFields emptyItem fs
  | _ => none

/-- Decode the elements of a JSON array into callback items. -/
def decodeItemList : JsonList → Option (List STKCallbackItem)
  | .nil => some []
  | .cons v l =>
    match decodeItemJson v, decodeItemList l with
    | some it, some its => some (it :: its)
    | _, _ => none

/-- Decode a JSON value into the `Item` slice: null yields a nil slice,
an array decodes element-wise. -/
def decodeItems : Json → Option (Option (List STKCallbackItem))
  | .null => some none
  | .arr l => (decodeItemList l).map some
  | _ => none

/-- Apply one object member to an `STKCallbackMetadata` under decoding. -/
def stkMetadataApplyField (m : STKCallbackMetadata) (k : String) (v : Json) :
    Option STKCallbackMetadata :=
  if keyMatch k "Item" then (decodeItems v).map (fun its => { m with Item := its })
  else some m

/-- Fold the members of a JSON object into an `STKCallbackMetadata`. -/
def stkMetadataApplyFields (m : STKCallbackMetadata) :
    JsonFields → Option STKCallbackMetadata
  | .nil => some m
  | .fcons k v fs =>
    match stkMetadataApplyField m k v with
    | none => none
    | some m' => stkMetadataApplyFields m' fs

/-- Decode a JSON value into an `STKCallbackMetadata`. -/
def decodeMetadataJson : Json → Option STKCallbackMetadata
  | .null => some ⟨none⟩
  | .obj fs => stkMetadataApplyFields ⟨none⟩ fs
  | _ => none

/-- The zero value of `STKCallback`. -/
def emptyStkCallback : STKCallback := ⟨"", "", 0, "", ⟨none⟩⟩

/-- Apply one object member to an `STKCallback` under decoding. -/
def stkCallbackApplyField (c : STKCallback) (k : String) (v : Json) : Option STKCallback :=
  if keyMatch k "MerchantRequestID" then
    (decodeStringField c.MerchantRequestID v).map (fun s => { c with MerchantRequestID := s })
  else if keyMatch k "CheckoutRequestID" then
    (decodeStringField c.CheckoutRequestID v).map (fun s => { c with CheckoutRequestID := s })
  else if keyMatch k "ResultCode" then
    (decodeIntField c.ResultCode v).map (fun i => { c with ResultCode := i })
  else if keyMatch k "ResultDesc" then
    (decodeStringField c.ResultDesc v).map (fun s => { c with ResultDesc := s })
  else if keyMatch k "CallbackMetadata" then
    match v with
    | .null => some c
    | .obj fs => (stkMetadataApplyFields c.CallbackMetadata fs).map
        (fun m => { c with CallbackMetadata := m })
    | _ => none
  else some c

/-- Fold the members of a JSON object into an `STKCallback`. -/
def stkCallbackApplyFields (c : STKCallback) : JsonFields → Option STKCallback
  | .nil => some c
  | .fcons k v fs =>
    match stkCallbackApplyField c k v with
    | none => none
    | some c' => stkCallbackApplyFields c' fs

/-- Decode a JSON value into an `STKCallback`. -/
def decodeStkCallbackJson : Json → Option STKCallback
  | .null => some emptyStkCallback
  | .obj fs => stkCallbackApplyFields emptyStkCallback fs
  | _ => none

/-- Apply one object member to an `STKPushCallbackBody` under decoding. -/
def stkBodyApplyField (b : STKPushCallbackBody) (k : String) (v : Json) :
    Option STKPushCallbackBody :=
  if keyMatch k "stkCallback" then
    match v with
    | .null => some b
    | .obj fs => (stkCallbackApplyFields b.STKCallback fs).map (fun c => ⟨c⟩)
    | _ => none
  else some b

/-- Fold the members of a JSON object into an `STKPushCallbackBody`. -/
def stkBodyApplyFields (b : STKPushCallbackBody) : JsonFields → Option STKPushCallbackBody
  | .nil => some b
  | .fcons k v fs =>
    match stkBodyApplyField b k v with
    | none => none
    | some b' => stkBodyApplyFields b' fs

/-- Apply one object member to an `STKPushCallback` under decoding. -/
def stkPushCallbackApplyField (cb : STKPushCallback) (k : String) (v : Json) :
    Option STKPushCallback :=
  if keyMatch k "Body" then
    match v with
    | .null => some cb
    | .obj fs => (stkBodyApplyFields cb.Body fs).map (fun b => ⟨b⟩)
    | _ => none
  else some cb

/-- Fold the members of a JSON object into an `STKPushCallback`. -/
def stkPushCallbackApplyFields (cb : STKPushCallback) :
    JsonFields → Option STKPushCallback
  | .nil => some cb
  | .fcons k v fs =>
    match stkPushCallbackApplyField cb k v with
    | none => none
    | some cb' => stkPushCallbackApplyFields cb' fs

/-- The zero value of `STKPushCallback`. -/
def emptyCallback : STKPushCallback := ⟨⟨emptyStkCallback⟩⟩

/-- Decode a JSON value into an `STKPushCallback`. -/
def decodeSTKPushCallbackJson : Json → Option STKPushCallback
  | .null => some emptyCallback
  | .obj fs => stkPushCallbackApplyFields emptyCallback fs
  | _ => none

/-- JSON view of one callback metadata item; `Value` is dropped when it is
the nil interface, matching its `omitempty` tag. -/
def stkItemToJson (it : STKCallbackItem) : Json :=
  .obj (.fcons "Name" (.str it.Name)
    (match it.Value with
     | .null => .nil
     | v => .fcons "Value" v .nil))

/-- JSON view of a list of callback metadata items. -/
def stkItemsToJson : List STKCallbackItem → JsonList
  | [] => .nil
  | it :: its => .cons (stkItemToJson it) (stkItemsToJson its)

/-- JSON view of callback metadata; a nil slice marshals to null. -/
def stkMetadataToJson (m : STKCallbackMetadata) : Json :=
  .obj (.fcons "Item"
    (match m.Item with
     | none => .null
     | some its => .arr (stkItemsToJson its)) .nil)

/-- JSON view of the callback payload, fields in declaration order. -/
def stkCallbackToJson (c : STKCallback) : Json :=
  .obj (.fcons "MerchantRequestID" (.str c.MerchantRequestID)
    (.fcons "CheckoutRequestID" (.str c.CheckoutRequestID)
      (.fcons "ResultCode" (.num (String.mk (intChars c.ResultCode)))
        (.fcons "ResultDesc" (.str c.ResultDesc)
          (.fcons "CallbackMetadata" (stkMetadataToJson c.CallbackMetadata) .nil)))))

/-- JSON view of a whole checkout callback. -/
def stkPushCallbackToJson (cb : STKPushCallback) : Json :=
  .obj (.fcons "Body" (.obj (.fcons "stkCallback" (stkCallbackToJson cb.Body.STKCallback) .nil)) .nil)

/-- Embedding of `json.Marshal` on an `STKPushCallback` value. -/
def marshalSTKPushCallback (cb : STKPushCallback) : String :=
  printJson (stkPushCallbackToJson cb)

/-- The input shapes accepted by `toBytes`: a raw JSON string, a request
whose body is a byte stream to drain fully, or (the default `json.Marshal`
case) a pre-built typed callback value. -/
inductive UnmarshalInput where
  | ofString (s : String)
  | ofRequest (body : String)
  | ofCallback (cb : STKPushCallback)

/-- toBytes decodes the provided value to bytes. -/
def toBytes : UnmarshalInput → Option String
  | .ofString s => some s
  | .ofRequest body => some body
  | .ofCallback cb => some (marshalSTKPushCallback cb)

/-- UnmarshalSTKPushCallback decodes the provided value to STKPushCallback. -/
def UnmarshalSTKPushCallback (input : UnmarshalInput) : Option STKPushCallback :=
  match toBytes input with
  | none => none
  | some b => (jsonUnmarshal b).bind decodeSTKPushCallbackJson

/-- Well-formedness of the JSON payload carried inside one item. -/
def stkItemWf (it : STKCallbackItem) : Bool := Json.wf it.Value

/-- Well-formedness of the JSON payloads of a callback. -/
def callbackWf (cb : STKPushCallback) : Bool :=
  match cb.Body.STKCallback.CallbackMetadata.Item with
  | none => true
  | some its => its.all stkItemWf

/-- Environment indicates the current mode the application is running on. -/
inductive Environment where
  | Sandbox : Environment
  | Production : Environment
deriving Repr, DecidableEq

/-- IsProduction returns true if the current env is set to production. -/
def Environment.IsProduction : Environment → Bool
  | .Production => true
  | .Sandbox => false

/-- The errors produced by the SDK; Go formats them as strings, here each
carries the same data as a structured value. -/
inductive MpesaError where
  | invalidPasskey : MpesaError
  | invalidInitiatorPassword : MpesaError
  | authRequestCreationError (msg : String) : MpesaError
  | authTransportError (msg : String) : MpesaError
  | authStatusError (statusText : String) : MpesaError
  | authDecodeError : MpesaError
  | opTransportError (id : String) (msg : String) : MpesaError
  | opDecodeError (id : String) : MpesaError
  | businessError (id : String) (requestId : String) (errorCode : String)
      (errorMessage : String) : MpesaError
  | responseCodeError (id : String) (responseCode : String)
      (responseDescription : String) : MpesaError
  | encryptionError (msg : String) : MpesaError
  | urlSchemeError (url : String) : MpesaError
deriving Repr, DecidableEq

/-- The token cache: a map from consumer key to cached authorization
response, embedded as an association list without duplicate keys. -/
def Cache := List (String × AuthorizationResponse)

/-- Map lookup. -/
def cacheLookup : Cache → String → Option AuthorizationResponse
  | [], _ => none
  | (k, v) :: c, key => if k = key then some v else cacheLookup c key

/-- Map assignment. -/
def cacheInsert : Cache → String → AuthorizationResponse → Cache
  | [], key, v => [(key, v)]
  | (k, w) :: c, key, v => if k = key then (k, v) :: c else (k, w) :: cacheInsert c key v

/-- The access token time-to-live of 55 minutes, in seconds. -/
def accessTokenTTL : Nat := 55 * 60

/-- Outcome of the authorization HTTP exchange, supplied as an explicit
oracle: request construction may fail, the transport may fail, or the
token endpoint answers with a status and a body. -/
inductive AuthNetOutcome where
  | newRequestError (msg : String) : AuthNetOutcome
  | doError (msg : String) : AuthNetOutcome
  | response (statusCode : Nat) (statusText : String) (body : String) : AuthNetOutcome

/-- Outcome of one call to `GenerateAccessToken`: its return value, the
cache afterwards, the number of HTTP requests performed and the number of
cache writes. -/
structure AuthStepResult where
  result : Except MpesaError String
  cache : Cache
  requests : Nat
  writes : Nat

/-- The refresh path of `GenerateAccessToken`: build the request, perform
the GET with basic auth, check the status, decode, store and return from
the cache. -/
def fetchAccessToken (consumerKey : String) (now : Nat) (net : AuthNetOutcome)
    (c : Cache) : AuthStepResult :=
  match net with
  | .newRequestError msg => ⟨.error (.authRequestCreationError msg), c, 0, 0⟩
  | .doError msg => ⟨.error (.authTransportError msg), c, 1, 0⟩
  | .response statusCode statusText body =>
    if statusCode ≠ 200 then ⟨.error (.authStatusError statusText), c, 1, 0⟩
    else
      match decodeAuthorizationResponse body with
      | none => ⟨.error .authDecodeError, c, 1, 0⟩
      | some response =>
        let stored := { response with setAt := now }
        let c' := cacheInsert c consumerKey stored
        ⟨.ok (match cacheLookup c' consumerKey with
              | some r => r.AccessToken
              | none => ""), c', 1, 1⟩

/-- GenerateAccessToken returns a time bound access token to call allowed
APIs, caching it for `accessTokenTTL`; the mutual-exclusion lock of the
source makes each call one atomic step, embedded here as a pure state
transformer. -/
def GenerateAccessToken (consumerKey : String) (now : Nat) (net : AuthNetOutcome)
    (c : Cache) : AuthStepResult :=
  match cacheLookup c consumerKey with
  | some cachedData =>
    if now < cachedData.setAt + accessTokenTTL then
      ⟨.ok cachedData.AccessToken, c, 0, 0⟩
    else fetchAccessToken consumerKey now net c
  | none => fetchAccessToken consumerKey now net c

/-- Outcome of the operation HTTP exchange. -/
inductive OpNetOutcome where
  | doError (msg : String) : OpNetOutcome
  | response (statusCode : Nat) (statusText : String) (body : String) : OpNetOutcome

/-- Outcome of one dispatch operation: its return value, the cache
afterwards and the total number of HTTP requests performed (token fetch
plus operation call). -/
structure OpResult (α : Type) where
  result : Except MpesaError α
  cache : Cache
  requests : Nat

/-- Embedding of `makeHttpRequestWithToken`: marshal the payload, build the
request, obtain a bearer token, send, and hand back the raw response
(status code, status text, body).  Marshaling and request construction
never fail for the SDK's payload types. -/
def makeHttpRequestWithToken {α : Type} (consumerKey : String) (now : Nat)
    (auth : AuthNetOutcome) (op : OpNetOutcome) (id : String) (_body : α)
    (c : Cache) : OpResult (Nat × String × String) :=
  match GenerateAccessToken consumerKey now auth c with
  | ⟨.error e, c', n, _⟩ => ⟨.error e, c', n⟩
  | ⟨.ok _accessToken, c', n, _⟩ =>
    match op with
    | .doError msg => ⟨.error (.opTransportError id msg), c', n + 1⟩
    | .response statusCode statusText body => ⟨.ok (statusCode, statusText, body), c', n + 1⟩

/-- A wall-clock instant with calendar fields, the view of `time.Now()`
consumed by `Format("20060102150405")`. -/
structure DateTime where
  year : Nat
  month : Nat
  day : Nat
  hour : Nat
  minute : Nat
  second : Nat
deriving Repr, DecidableEq

/-- Zero-padded decimal rendering to a minimum width. -/
def padNat (w n : Nat) : List Char :=
  List.replicate (w - (natChars n).length) '0' ++ natChars n

/-- The embedding of Go `time.Time.Format("20060102150405")`:
YYYYMMDDHHmmss with zero padding. -/
def formatTimestamp (t : DateTime) : String :=
  String.mk (padNat 4 t.year ++ padNat 2 t.month ++ padNat 2 t.day ++
    padNat 2 t.hour ++ padNat 2 t.minute ++ padNat 2 t.second)

/-- One instant of `time.Now()` under both views: seconds for the cache
TTL comparison and calendar fields for the charge timestamp. -/
structure Clock where
  epoch : Nat
  wall : DateTime

/-- Embedding of the source `generateTimestampAndPassword`: the timestamp
is the current wall clock formatted YYYYMMDDHHmmss and the password is
base64 of decimal shortcode, passkey and that timestamp concatenated. -/
def generateTimestampAndPassword (shortcode : Nat) (passkey : String) (now : DateTime) :
    String × String :=
  let timestamp := formatTimestamp now
  let password := natString shortcode ++ passkey ++ timestamp
  (timestamp, base64EncodeString (utf8Bytes password))

/-- STKPushRequest represents the data provided by the user for an STK push. -/
structure STKPushRequest where
  BusinessShortCode : Nat
  Password : String
  Timestamp : String
  TransactionType : String
  Amount : Nat
  PartyA : Nat
  PartyB : Nat
  PhoneNumber : Nat
  CallBackURL : String
  AccountReference : String
  TransactionDesc : String
deriving Repr, DecidableEq

/-- STKQueryRequest carries the data for an STK push status query. -/
structure STKQueryRequest where
  BusinessShortCode : Nat
  CheckoutRequestID : String
  Password : String
  Timestamp : String
deriving Repr, DecidableEq

/-- B2CRequest carries the data for a business-to-customer payout. -/
structure B2CRequest where
  InitiatorName : String
  SecurityCredential : String
  CommandID : String
  Amount : Nat
  PartyA : Nat
  PartyB : Nat
  Remarks : String
  QueueTimeOutURL : String
  ResultURL : String
  Occasion : String
deriving Repr, DecidableEq

/-- TransactionStatusRequest carries the data for a transaction status query. -/
structure TransactionStatusRequest where
  CommandID : String
  IdentifierType : Nat
  Initiator : String
  Occasion : String
  OriginatorConversationID : String
  PartyA : Nat
  QueueTimeOutURL : String
  Remarks : String
  ResultURL : String
  SecurityCredential : String
  TransactionID : String
deriving Repr, DecidableEq

/-- The success sentinel for response codes. -/
def SuccessResultCode : String := "0"

/-- The payload actually sent by `STKPush`: the caller's request with
`Timestamp` and `Password` overwritten right before the send. -/
def stkPushPayload (now : DateTime) (passkey : String) (req : STKPushRequest) :
    STKPushRequest :=
  let tp := generateTimestampAndPassword req.BusinessShortCode passkey now
  { req with Timestamp := tp.1, Password := tp.2 }

/-- The payload actually sent by `STKQuery`. -/
def stkQueryPayload (now : DateTime) (passkey : String) (req : STKQueryRequest) :
    STKQueryRequest :=
  let tp := generateTimestampAndPassword req.BusinessShortCode passkey now
  { req with Timestamp := tp.1, Password := tp.2 }

/-- The error classification tail shared by `STKPush`, `STKQuery` and
`B2C`: a non-empty errorCode yields the business error carrying the
request id, error code and error message; anything else is success. -/
def classifyByErrorCode (id : String) (resp : GeneralRequestResponse) :
    Except MpesaError GeneralRequestResponse :=
  if resp.ErrorCode ≠ "" then
    .error (.businessError id resp.RequestID resp.ErrorCode resp.ErrorMessage)
  else .ok resp

/-- The error classification tail of `GetTxnStatus`: any response code
other than the success sentinel fails first, then a non-empty errorCode
yields the business error. -/
def classifyTxnStatus (resp : GeneralRequestResponse) :
    Except MpesaError GeneralRequestResponse :=
  if resp.ResponseCode ≠ SuccessResultCode then
    .error (.responseCodeError "txn status" resp.ResponseCode resp.ResponseDescription)
  else if resp.ErrorCode ≠ "" then
    .error (.businessError "txn status" resp.RequestID resp.ErrorCode resp.ErrorMessage)
  else .ok resp

/-- STKPush initiates online payment on behalf of a customer using STKPush. -/
def STKPush (consumerKey : String) (now : Clock) (auth : AuthNetOutcome)
    (op : OpNetOutcome) (passkey : String) (req : STKPushRequest) (c : Cache) :
    OpResult GeneralRequestResponse :=
  if passkey = "" then ⟨.error .invalidPasskey, c, 0⟩
  else
    let payload := stkPushPayload now.wall passkey req
    match makeHttpRequestWithToken consumerKey now.epoch auth op "stk push" payload c with
    | ⟨.error e, c', n⟩ => ⟨.error e, c', n⟩
    | ⟨.ok (_, _, body), c', n⟩ =>
      match decodeGeneralRequestResponse body with
      | none => ⟨.error (.opDecodeError "stk push"), c', n⟩
      | some resp => ⟨classifyByErrorCode "stk push" resp, c', n⟩

/-- STKQuery checks the status of an STKPush payment. -/
def STKQuery (consumerKey : String) (now : Clock) (auth : AuthNetOutcome)
    (op : OpNetOutcome) (passkey : String) (req : STKQueryRequest) (c : Cache) :
    OpResult GeneralRequestResponse :=
  if passkey = "" then ⟨.error .invalidPasskey, c, 0⟩
  else
    let payload := stkQueryPayload now.wall passkey req
    match makeHttpRequestWithToken consumerKey now.epoch auth op "stk push query" payload c with
    | ⟨.error e, c', n⟩ => ⟨.error e, c', n⟩
    | ⟨.ok (_, _, body), c', n⟩ =>
      match decodeGeneralRequestResponse body with
      | none => ⟨.error (.opDecodeError "stk push query"), c', n⟩
      | some resp => ⟨classifyByErrorCode "stk push query" resp, c', n⟩

/-- The RSA public key material of an embedded certificate: modulus,
public exponent and modulus size in bytes. -/
structure RSAPublicKey where
  n : Nat
  e : Nat
  size : Nat
deriving Repr, DecidableEq

/-- Modular exponentiation by repeated squaring; the embedding of the
`big.Int` exponentiation inside `rsa.EncryptPKCS1v15`. -/
def powMod (b e m : Nat) : Nat :=
  if e = 0 then 1 % m
  else
    let h := powMod b (e / 2) m
    if e % 2 = 0 then h * h % m else h * h % m * (b % m) % m
decreasing_by exact Nat.div_lt_self (by omega) (by omega)

/-- Modelled from the spec: the embedded certificate assets under `certs/`
are binary resources that are not part of the sources; per spec §2 and
§4.2 the store holds two distinct certificates, one per environment, each
carrying an RSA public key.  Stand-in key for the sandbox certificate
(a 89-bit prime modulus). -/
def sandboxKey : RSAPublicKey := ⟨2 ^ 89 - 1, 65537, 12⟩

/-- Modelled from the spec: stand-in key for the production certificate
(a 107-bit prime modulus, distinct from the sandbox key). -/
def productionKey : RSAPublicKey := ⟨2 ^ 107 - 1, 65537, 14⟩

/-- The certificate selected by the environment. -/
def certificateKey : Environment → RSAPublicKey
  | .Production => productionKey
  | .Sandbox => sandboxKey

/-- Embedding of `rsa.EncryptPKCS1v15`: build the block
00 02 PS 00 M from the random nonzero padding `pad` (the drawn randomness
is an explicit argument), interpret it big-endian, exponentiate modulo n
and render the ciphertext over exactly `size` bytes.  Messages longer
than size - 11 are rejected. -/
def encryptPKCS1v15 (key : RSAPublicKey) (pad : List Nat) (msg : List Nat) :
    Option (List Nat) :=
  if key.size < msg.length + 11 then none
  else
    let em := 0 :: 2 :: (pad ++ 0 :: msg)
    some (natToBytes key.size (powMod (bytesToNat em) key.e key.n))

/-- getSecurityCredentials returns the base64 encoded string of the
initiator password encrypted with the public key of the certificate
selected by the environment. -/
def getSecurityCredentials (env : Environment) (pad : List Nat) (password : String) :
    Except MpesaError String :=
  if password = "" then .error .invalidInitiatorPassword
  else
    match encryptPKCS1v15 (certificateKey env) pad (utf8Bytes password) with
    | none => .error (.encryptionError "message too long for RSA key size")
    | some cipher => .ok (base64EncodeString cipher)

/-- B2C transacts between an M-Pesa short code and a phone number
registered on M-Pesa. -/
def B2C (consumerKey : String) (env : Environment) (now : Clock)
    (auth : AuthNetOutcome) (op : OpNetOutcome) (pad : List Nat)
    (initiatorPwd : String) (req : B2CRequest) (c : Cache) :
    OpResult GeneralRequestResponse :=
  if initiatorPwd = "" then ⟨.error .invalidInitiatorPassword, c, 0⟩
  else
    match getSecurityCredentials env pad initiatorPwd with
    | .error e => ⟨.error e, c, 0⟩
    | .ok securityCredential =>
      let payload := { req with SecurityCredential := securityCredential }
      match makeHttpRequestWithToken consumerKey now.epoch auth op "b2c" payload c with
      | ⟨.error e, c', n⟩ => ⟨.error e, c', n⟩
      | ⟨.ok (_, _, body), c', n⟩ =>
        match decodeGeneralRequestResponse body with
        | none => ⟨.error (.opDecodeError "b2c"), c', n⟩
        | some resp => ⟨classifyByErrorCode "b2c" resp, c', n⟩

/-- GetTxnStatus checks the status of a transaction. -/
def GetTxnStatus (consumerKey : String) (env : Environment) (now : Clock)
    (auth : AuthNetOutcome) (op : OpNetOutcome) (pad : List Nat)
    (initiatorPwd : String) (req : TransactionStatusRequest) (c : Cache) :
    OpResult GeneralRequestResponse :=
  if initiatorPwd = "" then ⟨.error .invalidInitiatorPassword, c, 0⟩
  else
    match getSecurityCredentials env pad initiatorPwd with
    | .error e => ⟨.error e, c, 0⟩
    | .ok securityCredential =>
      let payload := { req with SecurityCredential := securityCredential }
      match makeHttpRequestWithToken consumerKey now.epoch auth op "txn status" payload c with
      | ⟨.error e, c', n⟩ => ⟨.error e, c', n⟩
      | ⟨.ok (_, _, body), c', n⟩ =>
        match decodeGeneralRequestResponse body with
        | none => ⟨.error (.opDecodeError "txn status"), c', n⟩
        | some resp => ⟨classifyTxnStatus resp, c', n⟩

/-- Scheme of a URL: the characters before the first colon. -/
def urlScheme (u : String) : String :=
  String.mk (u.data.takeWhile (fun c => c ≠ ':'))

/-- Modelled from the spec: the repository's current transaction-status
operation validates its URLs, but that implementation is present in the
sources only through its tests; spec §4.3 step 8 requires rejecting, with
a validation error and before any network call, any payload whose
callback/result/timeout URL scheme is not the secure scheme https. -/
def validateURLScheme (u : String) : Bool := urlScheme u == "https"

/-- Modelled from the spec: the current transaction-status operation with
the secure-scheme checks of §4.3 step 8 guarding the dispatch of §4.3
steps 1-6; the order (initiator password first, then QueueTimeOutURL,
then ResultURL) follows the tests. -/
def GetTransactionStatus (consumerKey : String) (env : Environment) (now : Clock)
    (auth : AuthNetOutcome) (op : OpNetOutcome) (pad : List Nat)
    (initiatorPwd : String) (req : TransactionStatusRequest) (c : Cache) :
    OpResult GeneralRequestResponse :=
  if initiatorPwd = "" then ⟨.error .invalidInitiatorPassword, c, 0⟩
  else if !validateURLScheme req.QueueTimeOutURL then
    ⟨.error (.urlSchemeError req.QueueTimeOutURL), c, 0⟩
  else if !validateURLScheme req.ResultURL then
    ⟨.error (.urlSchemeError req.ResultURL), c, 0⟩
  else GetTxnStatus consumerKey env now auth op pad initiatorPwd req c

/-- Whether a list is empty or starts with a non-digit. -/
def noDigitHead : List Char → Bool
  | [] => true
  | c :: _ => !isDigitChar c

/-- Whether a list is empty or starts with a character that cannot extend
a number literal. -/
def noNumContHead : List Char → Bool
  | [] => true
  | c :: _ => !numCont c

/-- Conversion of the parser's element list to a standard list (only used
in statements). -/
def JsonList.toList : JsonList → List Json
  | .nil => []
  | .cons v l => v :: JsonList.toList l

/-- The outcome of a batch of calls to `GenerateAccessToken`: every call's
return value, the final cache and the total number of HTTP requests. -/
structure RunResult where
  results : List (Except MpesaError String)
  cache : Cache
  requests : Nat

/-- N calls to `GenerateAccessToken` on one client under its mutex: the
lock is held across the whole lookup-fetch-write critical section, so the
calls execute one after the other, each seeing the cache the previous one
left. -/
def runAuthCalls (consumerKey : String) (now : Nat) (net : AuthNetOutcome) :
    Nat → Cache → RunResult
  | 0, c => ⟨[], c, 0⟩
  | n + 1, c =>
    let s := GenerateAccessToken consumerKey now net c
    let r := runAuthCalls consumerKey now net n s.cache
    ⟨s.result :: r.results, r.cache, s.requests + r.requests⟩

mutual

/-- Parser fuel sufficient for a value (any larger fuel also works). -/
def Json.need : Json → Nat
  | .arr xs => 1 + JsonList.need xs
  | .obj fs => 1 + JsonFields.need fs
  | _ => 1

/-- Parser fuel sufficient for array elements. -/
def JsonList.need : JsonList → Nat
  | .nil => 1
  | .cons v l => 1 + max (Json.need v) (JsonList.need l)

/-- Parser fuel sufficient for object members. -/
def JsonFields.need : JsonFields → Nat
  | .nil => 1
  | .fcons _ v fs => 1 + max (Json.need v) (JsonFields.need fs)

end

/-- The theorems below verify the embedded code against the specification. -/
theorem Char_toNat_ofNat (m : Nat) (h : m < 55296) : (Char.ofNat m).toNat = m := by
  have hv : m.isValidChar := Or.inl h
  simp only [Char.ofNat, hv, dif_pos, Char.ofNatAux, Char.toNat, UInt32.toNat]
  simp [BitVec.toNat_ofNat]

theorem digitChar_toNat {n : Nat} (h : n < 10) : (digitChar n).toNat = 48 + n :=
  Char_toNat_ofNat (48 + n) (by omega)

theorem digitVal_digitChar {n : Nat} (h : n < 10) : digitVal (digitChar n) = n := by
  simp [digitVal, digitChar_toNat h]

theorem isDigitChar_digitChar {n : Nat} (h : n < 10) : isDigitChar (digitChar n) = true := by
  simp [isDigitChar, digitChar_toNat h]
  omega

theorem digitChar_ne_hyphen {n : Nat} (h : n < 10) : digitChar n ≠ '-' := by
  intro heq
  have h1 := digitChar_toNat h
  rw [heq] at h1
  have h2 : ('-' : Char).toNat = 45 := by decide
  omega

theorem natChars_ne_nil (n : Nat) : natChars n ≠ [] := by
  rw [natChars]
  split
  · simp
  · simp

theorem natChars_all_digits (n : Nat) : allDigits (natChars n) = true := by
  induction n using Nat.strong_induction_on with
  | _ n ih =>
    rw [natChars]
    split
    · next h => simp [allDigits, isDigitChar_digitChar h]
    · next h =>
      have h10 : 10 ≤ n := by omega
      have := ih (n / 10) (Nat.div_lt_self (by omega) (by omega))
      simp only [allDigits, List.all_append] at *
      simp [this, isDigitChar_digitChar (Nat.mod_lt n (by omega))]

theorem digitsToNat_append_digit (xs : List Char) (c : Char) :
    digitsToNat (xs ++ [c]) = digitsToNat xs * 10 + digitVal c := by
  simp [digitsToNat, List.foldl_append]

theorem digitsToNat_natChars (n : Nat) : digitsToNat (natChars n) = n := by
  induction n using Nat.strong_induction_on with
  | _ n ih =>
    rw [natChars]
    split
    · next h => simp [digitsToNat, digitVal_digitChar h]
    · next h =>
      rw [digitsToNat_append_digit, ih (n / 10) (Nat.div_lt_self (by omega) (by omega)),
        digitVal_digitChar (Nat.mod_lt n (by omega))]
      omega

theorem natChars_head_ne_zero (n : Nat) (hn : n ≠ 0) :
    ∀ c cs, natChars n = c :: cs → c ≠ '0' := by
  induction n using Nat.strong_induction_on with
  | _ n ih =>
    rw [natChars]
    split
    · next h =>
      intro c cs hc
      simp at hc
      intro heq
      have h1 := digitChar_toNat h
      rw [hc.1] at h1
      rw [heq] at h1
      have h2 : ('0' : Char).toNat = 48 := by decide
      omega
    · next h =>
      intro c cs hc
      have hne := natChars_ne_nil (n / 10)
      rcases hhead : natChars (n / 10) with _ | ⟨c', cs'⟩
      · exact absurd hhead hne
      · rw [hhead] at hc
        simp at hc
        rw [← hc.1]
        exact ih (n / 10) (Nat.div_lt_self (by omega) (by omega)) (by omega) c' cs' hhead

theorem intChars_ne_nil (i : Int) : intChars i ≠ [] := by
  cases i with
  | ofNat n => simpa [intChars] using natChars_ne_nil n
  | negSucc n => simp [intChars]

theorem decodeIntLit_intChars (i : Int) : decodeIntLit (intChars i) = some i := by
  cases i with
  | ofNat n =>
    rcases hhead : natChars n with _ | ⟨c, cs⟩
    · exact absurd hhead (natChars_ne_nil n)
    · have hall : allDigits (c :: cs) = true := hhead ▸ natChars_all_digits n
      have hdig : isDigitChar c = true := by
        have := hall
        simp [allDigits] at this
        exact this.1
      have hne : c ≠ '-' := by
        intro heq
        rw [heq] at hdig
        exact absurd hdig (by decide)
      simp only [intChars, hhead, decodeIntLit, if_neg hne, hall, if_pos]
      rw [← hhead, digitsToNat_natChars]
      simp
  | negSucc n =>
    rcases hhead : natChars (n + 1) with _ | ⟨c, cs⟩
    · exact absurd hhead (natChars_ne_nil _)
    · have hall : allDigits (c :: cs) = true := hhead ▸ natChars_all_digits (n + 1)
      simp only [intChars, hhead, decodeIntLit, if_pos]
      simp only [List.isEmpty_cons, hall, Bool.not_true, Bool.or_false]
      rw [← hhead, digitsToNat_natChars]
      simp [Int.negSucc_eq]

theorem noDigitHead_of_noNumContHead {cs : List Char} (h : noNumContHead cs = true) :
    noDigitHead cs = true := by
  cases cs with
  | nil => rfl
  | cons c cs =>
    simp [noNumContHead, numCont] at h
    simp [noDigitHead, h.1]

theorem takeDigits_split (cs : List Char) : (takeDigits cs).1 ++ (takeDigits cs).2 = cs := by
  induction cs with
  | nil => rfl
  | cons c cs ih =>
    by_cases h : isDigitChar c = true
    · simp [takeDigits, h, ih]
    · simp [takeDigits, h]

theorem takeDigits_all (cs : List Char) : allDigits (takeDigits cs).1 = true := by
  induction cs with
  | nil => rfl
  | cons c cs ih =>
    by_cases h : isDigitChar c = true
    · simpa [takeDigits, h, allDigits] using ih
    · simp [takeDigits, h, allDigits]

theorem takeDigits_noDigitHead (cs : List Char) : noDigitHead (takeDigits cs).2 = true := by
  induction cs with
  | nil => rfl
  | cons c cs ih =>
    by_cases h : isDigitChar c = true
    · simpa [takeDigits, h] using ih
    · simp [takeDigits, h, noDigitHead]

theorem takeDigits_append (ds rest : List Char) (h : allDigits ds = true)
    (h2 : noDigitHead rest = true) : takeDigits (ds ++ rest) = (ds, rest) := by
  induction ds with
  | nil =>
    cases rest with
    | nil => rfl
    | cons c cs =>
      simp [noDigitHead] at h2
      simp [takeDigits, h2]
  | cons d ds ih =>
    simp [allDigits] at h
    have := ih (by simpa [allDigits] using h.2)
    simp [takeDigits, h.1, this]

theorem takeDigits_extend (cs ds cs2 rest : List Char) (h : takeDigits cs = (ds, cs2))
    (h2 : noDigitHead (cs2 ++ rest) = true) : takeDigits (cs ++ rest) = (ds, cs2 ++ rest) := by
  have hsplit := takeDigits_split cs
  rw [h] at hsplit
  have hall : allDigits ds = true := by
    have := takeDigits_all cs
    rw [h] at this
    exact this
  rw [← hsplit, List.append_assoc]
  exact takeDigits_append ds (cs2 ++ rest) hall h2

theorem noDigitHead_append (cs2 rest : List Char) (h1 : noDigitHead cs2 = true)
    (h2 : noDigitHead rest = true) : noDigitHead (cs2 ++ rest) = true := by
  cases cs2 with
  | nil => simpa
  | cons c cs => simpa [noDigitHead] using h1

theorem parseIntPart_extend (cs1 ip cs2 rest : List Char)
    (h : parseIntPart cs1 = some (ip, cs2)) (hr : noDigitHead (cs2 ++ rest) = true) :
    parseIntPart (cs1 ++ rest) = some (ip, cs2 ++ rest) := by
  cases cs1 with
  | nil => simp [parseIntPart] at h
  | cons c cs =>
    by_cases h0 : c = '0'
    · simp [parseIntPart, h0] at h ⊢
      exact ⟨h.1, by rw [h.2]⟩
    · by_cases hd : isDigitChar c = true
      · rcases htake : takeDigits cs with ⟨ds, r⟩
        simp [parseIntPart, h0, hd, htake] at h
        have hext := takeDigits_extend cs ds r rest htake (by rw [h.2]; exact hr)
        simp [parseIntPart, h0, hd, hext, h.1, h.2]
      · simp [parseIntPart, h0, hd] at h

theorem parseFracPart_extend (cs2 fp cs3 rest : List Char)
    (h : parseFracPart cs2 = some (fp, cs3)) (hr : noNumContHead rest = true)
    (hr2 : noDigitHead (cs3 ++ rest) = true) :
    parseFracPart (cs2 ++ rest) = some (fp, cs3 ++ rest) := by
  cases cs2 with
  | nil =>
    simp [parseFracPart] at h
    obtain ⟨h1, h2⟩ := h
    subst h1
    subst h2
    simp only [List.nil_append]
    cases rest with
    | nil => rfl
    | cons c cs =>
      simp [noNumContHead, numCont] at hr
      obtain ⟨⟨⟨⟨⟨hd2, hdot⟩, he⟩, hE⟩, hplus⟩, hminus⟩ := hr
      simp [parseFracPart, hdot]
  | cons c cs =>
    by_cases hdot : c = '.'
    · rcases htake : takeDigits cs with ⟨ds, r⟩
      cases ds with
      | nil => simp [parseFracPart, hdot, htake] at h
      | cons d ds' =>
        simp [parseFracPart, hdot, htake] at h
        have hext := takeDigits_extend cs (d :: ds') r rest htake
          (by rw [h.2]; exact hr2)
        simp [parseFracPart, hdot, hext, h.1, h.2]
    · simp [parseFracPart, hdot] at h
      simp [parseFracPart, hdot, h.1, h.2.symm]

theorem parseExpPart_extend (cs3 ep cs4 rest : List Char)
    (h : parseExpPart cs3 = some (ep, cs4)) (hr : noNumContHead rest = true)
    (hr2 : noDigitHead (cs4 ++ rest) = true) :
    parseExpPart (cs3 ++ rest) = some (ep, cs4 ++ rest) := by
  cases cs3 with
  | nil =>
    simp [parseExpPart] at h
    obtain ⟨h1, h2⟩ := h
    subst h1
    subst h2
    simp only [List.nil_append]
    cases rest with
    | nil => rfl
    | cons c cs =>
      simp [noNumContHead, numCont] at hr
      obtain ⟨⟨⟨⟨⟨hd2, hdot⟩, he⟩, hE⟩, hplus⟩, hminus⟩ := hr
      simp [parseExpPart, he, hE]
  | cons e cs =>
    by_cases he : e = 'e' ∨ e = 'E'
    · cases cs with
      | nil => simp [parseExpPart, he] at h
      | cons s cs' =>
        by_cases hs : s = '+' ∨ s = '-'
        · rcases htake : takeDigits cs' with ⟨ds, r⟩
          cases ds with
          | nil => simp [parseExpPart, he, hs, htake] at h
          | cons d ds' =>
            simp [parseExpPart, he, hs, htake] at h
            have hext := takeDigits_extend cs' (d :: ds') r rest htake
              (by rw [h.2]; exact hr2)
            simp [parseExpPart, he, hs, hext, h.1, h.2]
        · rcases htake : takeDigits (s :: cs') with ⟨ds, r⟩
          cases ds with
          | nil => simp [parseExpPart, he, hs, htake] at h
          | cons d ds' =>
            simp [parseExpPart, he, hs, htake] at h
            have hext := takeDigits_extend (s :: cs') (d :: ds') r rest htake
              (by rw [h.2]; exact hr2)
            simp only [List.cons_append] at hext
            simp [parseExpPart, he, hs, hext, h.1, h.2]
    · simp [parseExpPart, he] at h
      simp [parseExpPart, he, h.1, h.2.symm]

theorem parseIntPart_split (cs1 ip cs2 : List Char) (h : parseIntPart cs1 = some (ip, cs2)) :
    cs1 = ip ++ cs2 := by
  cases cs1 with
  | nil => simp [parseIntPart] at h
  | cons c cs =>
    by_cases h0 : c = '0'
    · simp [parseIntPart, h0] at h
      rw [← h.1, ← h.2, h0]
      rfl
    · by_cases hd : isDigitChar c = true
      · rcases htake : takeDigits cs with ⟨ds, r⟩
        simp [parseIntPart, h0, hd, htake] at h
        have := takeDigits_split cs
        rw [htake] at this
        simp at this
        rw [← h.1, ← h.2]
        simp [← this]
      · simp [parseIntPart, h0, hd] at h

theorem parseFracPart_split (cs2 fp cs3 : List Char) (h : parseFracPart cs2 = some (fp, cs3)) :
    cs2 = fp ++ cs3 := by
  cases cs2 with
  | nil =>
    simp [parseFracPart] at h
    obtain ⟨h1, h2⟩ := h
    subst h1
    subst h2
    rfl
  | cons c cs =>
    by_cases hdot : c = '.'
    · rcases htake : takeDigits cs with ⟨ds, r⟩
      cases ds with
      | nil => simp [parseFracPart, hdot, htake] at h
      | cons d ds' =>
        simp [parseFracPart, hdot, htake] at h
        have := takeDigits_split cs
        rw [htake] at this
        simp at this
        rw [← h.1, ← h.2, hdot]
        simp [← this]
    · simp [parseFracPart, hdot] at h
      obtain ⟨h1, h2⟩ := h
      subst h1
      subst h2
      rfl

theorem parseExpPart_split (cs3 ep cs4 : List Char) (h : parseExpPart cs3 = some (ep, cs4)) :
    cs3 = ep ++ cs4 := by
  cases cs3 with
  | nil =>
    simp [parseExpPart] at h
    obtain ⟨h1, h2⟩ := h
    subst h1
    subst h2
    rfl
  | cons e cs =>
    by_cases he : e = 'e' ∨ e = 'E'
    · cases cs with
      | nil => simp [parseExpPart, he] at h
      | cons s cs' =>
        by_cases hs : s = '+' ∨ s = '-'
        · rcases htake : takeDigits cs' with ⟨ds, r⟩
          cases ds with
          | nil => simp [parseExpPart, he, hs, htake] at h
          | cons d ds' =>
            simp [parseExpPart, he, hs, htake] at h
            have := takeDigits_split cs'
            rw [htake] at this
            simp at this
            rw [← h.1, ← h.2]
            simp [← this]
        · rcases htake : takeDigits (s :: cs') with ⟨ds, r⟩
          cases ds with
          | nil => simp [parseExpPart, he, hs, htake] at h
          | cons d ds' =>
            simp [parseExpPart, he, hs, htake] at h
            have := takeDigits_split (s :: cs')
            rw [htake] at this
            simp at this
            rw [← h.1, ← h.2]
            simp [← this]
    · simp [parseExpPart, he] at h
      obtain ⟨h1, h2⟩ := h
      subst h1
      subst h2
      rfl

theorem parseFracPart_shape (cs2 fp cs3 : List Char) (h : parseFracPart cs2 = some (fp, cs3)) :
    fp = [] ∨ ∃ ds, fp = '.' :: ds := by
  cases cs2 with
  | nil =>
    simp [parseFracPart] at h
    exact Or.inl h.1
  | cons c cs =>
    by_cases hdot : c = '.'
    · rcases htake : takeDigits cs with ⟨ds, r⟩
      cases ds with
      | nil => simp [parseFracPart, hdot, htake] at h
      | cons d ds' =>
        simp [parseFracPart, hdot, htake] at h
        exact Or.inr ⟨d :: ds', h.1.symm⟩
    · simp [parseFracPart, hdot] at h
      exact Or.inl h.1

theorem parseExpPart_shape (cs3 ep cs4 : List Char) (h : parseExpPart cs3 = some (ep, cs4)) :
    ep = [] ∨ ∃ e tl, ep = e :: tl ∧ (e = 'e' ∨ e = 'E') := by
  cases cs3 with
  | nil =>
    simp [parseExpPart] at h
    exact Or.inl h.1
  | cons e cs =>
    by_cases he : e = 'e' ∨ e = 'E'
    · cases cs with
      | nil => simp [parseExpPart, he] at h
      | cons s cs' =>
        by_cases hs : s = '+' ∨ s = '-'
        · rcases htake : takeDigits cs' with ⟨ds, r⟩
          cases ds with
          | nil => simp [parseExpPart, he, hs, htake] at h
          | cons d ds' =>
            simp [parseExpPart, he, hs, htake] at h
            exact Or.inr ⟨e, s :: (d :: ds'), h.1.symm, he⟩
        · rcases htake : takeDigits (s :: cs') with ⟨ds, r⟩
          cases ds with
          | nil => simp [parseExpPart, he, hs, htake] at h
          | cons d ds' =>
            simp [parseExpPart, he, hs, htake] at h
            exact Or.inr ⟨e, d :: ds', h.1.symm, he⟩
    · simp [parseExpPart, he] at h
      exact Or.inl h.1

theorem parseNumberBody_extend (cs lit rest : List Char)
    (h : parseNumberBody cs = some (lit, [])) (hr : noNumContHead rest = true) :
    parseNumberBody (cs ++ rest) = some (lit, rest) := by
  have hdigit : noDigitHead rest = true := noDigitHead_of_noNumContHead hr
  cases cs with
  | nil => simp [parseNumberBody, parseIntPart] at h
  | cons c cs' =>
    rcases hip : parseIntPart (if c = '-' then cs' else c :: cs') with _ | ⟨ipr⟩
    · exfalso
      by_cases hc : c = '-' <;> simp [parseNumberBody, hc] at h <;> simp [hc] at hip <;>
        simp [hip] at h
    · rcases ipr with ⟨ip, cs2⟩
      rcases hfp : parseFracPart cs2 with _ | ⟨fpr⟩
      · exfalso
        by_cases hc : c = '-' <;> simp [parseNumberBody, hc] at h <;> simp [hc] at hip <;>
          simp [hip, hfp] at h
      · rcases fpr with ⟨fp, cs3⟩
        rcases hep : parseExpPart cs3 with _ | ⟨epr⟩
        · exfalso
          by_cases hc : c = '-' <;> simp [parseNumberBody, hc] at h <;> simp [hc] at hip <;>
            simp [hip, hfp, hep] at h
        · rcases epr with ⟨ep, cs4⟩
          have hmain : cs4 = [] ∧ lit = (if c = '-' then ['-'] else []) ++ ip ++ fp ++ ep := by
            by_cases hc : c = '-' <;> simp [parseNumberBody, hc] at h <;> simp [hc] at hip <;>
              simp [hip, hfp, hep] at h <;> simp [hc] <;> exact ⟨h.2, h.1.symm⟩
          have hcs4 : cs4 = [] := hmain.1
          rw [hcs4] at hep
          have hsp2 := parseFracPart_split cs2 fp cs3 hfp
          have hsp3 := parseExpPart_split cs3 ep [] hep
          simp at hsp3
          have hepshape := parseExpPart_shape cs3 ep [] hep
          have hfpshape := parseFracPart_shape cs2 fp cs3 hfp
          have hnd3 : noDigitHead (cs3 ++ rest) = true := by
            rw [hsp3]
            rcases hepshape with hnil | ⟨e, tl, hcons, he⟩
            · simpa [hnil]
            · rw [hcons]
              rcases he with he | he <;> simp [noDigitHead, he, isDigitChar]
          have hnd2 : noDigitHead (cs2 ++ rest) = true := by
            rw [hsp2]
            rcases hfpshape with hnil | ⟨ds, hcons⟩
            · simpa [hnil]
            · rw [hcons]
              simp [noDigitHead, isDigitChar]
          have hip' := parseIntPart_extend _ ip cs2 rest hip hnd2
          have hfp' := parseFracPart_extend cs2 fp cs3 rest hfp hr hnd3
          have hep' := parseExpPart_extend cs3 ep [] rest hep hr (by simpa)
          simp at hep'
          by_cases hc : c = '-'
          · rw [hc]
            show parseNumberBody ('-' :: (cs' ++ rest)) = some (lit, rest)
            rw [hc] at hip hip'
            simp at hip hip'
            simp [parseNumberBody, hip', hfp', hep']
            rw [hmain.2]
            simp [hc]
          · show parseNumberBody ((c :: cs') ++ rest) = some (lit, rest)
            rw [if_neg hc] at hip hip'
            have : (c :: cs') ++ rest = c :: (cs' ++ rest) := rfl
            rw [this]
            simp only [List.cons_append] at hip'
            simp [parseNumberBody, hc, hip', hfp', hep']
            rw [hmain.2]
            simp [hc]

theorem parseNumberBody_split (cs lit r : List Char)
    (h : parseNumberBody cs = some (lit, r)) : cs = lit ++ r := by
  cases cs with
  | nil => simp [parseNumberBody, parseIntPart] at h
  | cons c cs' =>
    rcases hip : parseIntPart (if c = '-' then cs' else c :: cs') with _ | ⟨ip, cs2⟩
    · exfalso
      by_cases hc : c = '-' <;> simp [parseNumberBody, hc] at h <;> simp [hc] at hip <;>
        simp [hip] at h
    · rcases hfp : parseFracPart cs2 with _ | ⟨fp, cs3⟩
      · exfalso
        by_cases hc : c = '-' <;> simp [parseNumberBody, hc] at h <;> simp [hc] at hip <;>
          simp [hip, hfp] at h
      · rcases hep : parseExpPart cs3 with _ | ⟨ep, cs4⟩
        · exfalso
          by_cases hc : c = '-' <;> simp [parseNumberBody, hc] at h <;> simp [hc] at hip <;>
            simp [hip, hfp, hep] at h
        · have h1 := parseIntPart_split _ _ _ hip
          have h2 := parseFracPart_split _ _ _ hfp
          have h3 := parseExpPart_split _ _ _ hep
          have hmain : cs4 = r ∧ lit = (if c = '-' then ['-'] else []) ++ ip ++ fp ++ ep := by
            by_cases hc : c = '-' <;> simp [parseNumberBody, hc] at h <;> simp [hc] at hip <;>
              simp [hip, hfp, hep] at h <;> simp [hc] <;> exact ⟨h.2, h.1.symm⟩
          rw [hmain.2, ← hmain.1]
          by_cases hc : c = '-'
          · rw [hc] at h1 ⊢
            simp at h1
            simp [h1, h2, h3]
          · rw [if_neg hc] at h1
            simp [hc, h1, h2, h3]

theorem parseNumberBody_head (cs lit r : List Char)
    (h : parseNumberBody cs = some (lit, r)) :
    ∃ c cs', cs = c :: cs' ∧ (c = '-' ∨ isDigitChar c = true) := by
  cases cs with
  | nil => simp [parseNumberBody, parseIntPart] at h
  | cons c cs' =>
    refine ⟨c, cs', rfl, ?_⟩
    by_cases hc : c = '-'
    · exact Or.inl hc
    · right
      simp [parseNumberBody, hc] at h
      rcases hip : parseIntPart (c :: cs') with _ | ⟨⟨ip, cs2⟩⟩
      · simp [hip] at h
      · by_cases h0 : c = '0'
        · rw [h0]
          decide
        · by_cases hd : isDigitChar c = true
          · exact hd
          · simp [parseIntPart, h0, hd] at hip

theorem isValidNumLit_elim (lit : List Char) (h : isValidNumLit lit = true) :
    parseNumberBody lit = some (lit, []) := by
  unfold isValidNumLit at h
  rcases hp : parseNumberBody lit with _ | ⟨⟨l, r⟩⟩
  · rw [hp] at h
    simp at h
  · rw [hp] at h
    cases r with
    | cons a b => simp at h
    | nil =>
      have hs := parseNumberBody_split lit l [] hp
      simp at hs
      rw [hs]

theorem parseIntPart_natChars (n : Nat) (rest : List Char)
    (h2 : noDigitHead rest = true) :
    parseIntPart (natChars n ++ rest) = some (natChars n, rest) := by
  by_cases hz : n = 0
  · subst hz
    have : natChars 0 = ['0'] := by rw [natChars]; rfl
    rw [this]
    simp [parseIntPart]
  · rcases hhead : natChars n with _ | ⟨c, cs⟩
    · exact absurd hhead (natChars_ne_nil n)
    · have hall : allDigits (c :: cs) = true := hhead ▸ natChars_all_digits n
      have h0 : c ≠ '0' := natChars_head_ne_zero n hz c cs hhead
      simp [allDigits] at hall
      have htake : takeDigits (cs ++ rest) = (cs, rest) :=
        takeDigits_append cs rest (by simp [allDigits]; exact hall.2) h2
      simp [parseIntPart, h0, hall.1, htake]

theorem parseNumberBody_intChars (i : Int) (rest : List Char)
    (hr : noNumContHead rest = true) :
    parseNumberBody (intChars i ++ rest) = some (intChars i, rest) := by
  have hdig := noDigitHead_of_noNumContHead hr
  have hfrac : ∀ cs, noNumContHead cs = true → parseFracPart cs = some ([], cs) := by
    intro cs hcs
    cases cs with
    | nil => rfl
    | cons c cs' =>
      simp [noNumContHead, numCont] at hcs
      obtain ⟨⟨⟨⟨⟨hd2, hdot⟩, he⟩, hE⟩, hplus⟩, hminus⟩ := hcs
      simp [parseFracPart, hdot]
  have hexp : ∀ cs, noNumContHead cs = true → parseExpPart cs = some ([], cs) := by
    intro cs hcs
    cases cs with
    | nil => rfl
    | cons c cs' =>
      simp [noNumContHead, numCont] at hcs
      obtain ⟨⟨⟨⟨⟨hd2, hdot⟩, he⟩, hE⟩, hplus⟩, hminus⟩ := hcs
      simp [parseExpPart, he, hE]
  cases i with
  | ofNat n =>
    rcases hhead : natChars n with _ | ⟨c, cs⟩
    · exact absurd hhead (natChars_ne_nil n)
    · have hall : allDigits (c :: cs) = true := hhead ▸ natChars_all_digits n
      have hcd : isDigitChar c = true := by
        simp [allDigits] at hall
        exact hall.1
      have hcm : c ≠ '-' := by
        intro heq
        rw [heq] at hcd
        exact absurd hcd (by decide)
      have hip := parseIntPart_natChars n rest hdig
      rw [hhead] at hip
      simp only [List.cons_append] at hip
      show parseNumberBody ((natChars n) ++ rest) = some (natChars n, rest)
      rw [hhead]
      simp only [List.cons_append]
      simp [parseNumberBody, hcm, hip, hfrac rest hr, hexp rest hr, hhead]
  | negSucc n =>
    have hip := parseIntPart_natChars (n + 1) rest hdig
    show parseNumberBody (('-' :: natChars (n + 1)) ++ rest) = some ('-' :: natChars (n + 1), rest)
    simp only [List.cons_append]
    simp [parseNumberBody, hip, hfrac rest hr, hexp rest hr]

theorem isValidNumLit_intChars (i : Int) : isValidNumLit (intChars i) = true := by
  unfold isValidNumLit
  have := parseNumberBody_intChars i [] rfl
  simp at this
  rw [this]

theorem base64Val_table : ∀ n < 64, base64Val (base64Table n) = some n := by decide

theorem base64Table_ne_pad : ∀ n < 64, base64Table n ≠ '=' := by decide

theorem base64_roundtrip :
    ∀ bs : List Nat, (∀ b ∈ bs, b < 256) →
      base64DecodeChars (base64Encode bs) = some bs
  | [], _ => rfl
  | [b1], h => by
    have hb1 : b1 < 256 := h b1 (by simp)
    have e1 := base64Val_table (b1 / 4) (by omega)
    have e2 := base64Val_table (b1 % 4 * 16) (by omega)
    simp [base64Encode, base64DecodeChars, e1, e2]
    omega
  | [b1, b2], h => by
    have hb1 : b1 < 256 := h b1 (by simp)
    have hb2 : b2 < 256 := h b2 (by simp)
    have e1 := base64Val_table (b1 / 4) (by omega)
    have e2 := base64Val_table (b1 % 4 * 16 + b2 / 16) (by omega)
    have e3 := base64Val_table (b2 % 16 * 4) (by omega)
    have ne3 := base64Table_ne_pad (b2 % 16 * 4) (by omega)
    simp [base64Encode, base64DecodeChars, e1, e2, e3, ne3]
    omega
  | b1 :: b2 :: b3 :: rest, h => by
    have hb1 : b1 < 256 := h b1 (by simp)
    have hb2 : b2 < 256 := h b2 (by simp)
    have hb3 : b3 < 256 := h b3 (by simp)
    have e1 := base64Val_table (b1 / 4) (by omega)
    have e2 := base64Val_table (b1 % 4 * 16 + b2 / 16) (by omega)
    have e3 := base64Val_table (b2 % 16 * 4 + b3 / 64) (by omega)
    have e4 := base64Val_table (b3 % 64) (by omega)
    have ne3 := base64Table_ne_pad (b2 % 16 * 4 + b3 / 64) (by omega)
    have ne4 := base64Table_ne_pad (b3 % 64) (by omega)
    have ih := base64_roundtrip rest (fun b hb => h b (by simp [hb]))
    simp [base64Encode, base64DecodeChars, e1, e2, e3, e4, ne3, ne4, ih]
    omega

theorem base64Encode_inj (xs ys : List Nat) (hx : ∀ b ∈ xs, b < 256)
    (hy : ∀ b ∈ ys, b < 256) (h : base64Encode xs = base64Encode ys) : xs = ys := by
  have h1 := base64_roundtrip xs hx
  have h2 := base64_roundtrip ys hy
  rw [h] at h1
  rw [h1] at h2
  exact (Option.some.injEq _ _).mp h2

theorem bytesToNat_append_byte (xs : List Nat) (b : Nat) :
    bytesToNat (xs ++ [b]) = bytesToNat xs * 256 + b := by
  simp [bytesToNat, List.foldl_append]

theorem natToBytes_length (k n : Nat) : (natToBytes k n).length = k := by
  induction k generalizing n with
  | zero => rfl
  | succ k ih => simp [natToBytes, ih]

theorem natToBytes_lt (k n : Nat) : ∀ b ∈ natToBytes k n, b < 256 := by
  induction k generalizing n with
  | zero => simp [natToBytes]
  | succ k ih =>
    intro b hb
    simp [natToBytes] at hb
    rcases hb with hb | hb
    · exact ih (n / 256) b hb
    · omega

theorem bytesToNat_natToBytes (k n : Nat) (h : n < 256 ^ k) :
    bytesToNat (natToBytes k n) = n := by
  induction k generalizing n with
  | zero =>
    simp [Nat.pow_zero] at h
    simp [natToBytes, bytesToNat, h]
  | succ k ih =>
    have hdiv : n / 256 < 256 ^ k := by
      rw [Nat.div_lt_iff_lt_mul (by omega)]
      calc n < 256 ^ (k + 1) := h
        _ = 256 ^ k * 256 := by ring
    simp [natToBytes, bytesToNat_append_byte, ih (n / 256) hdiv]
    omega

theorem natToBytes_inj (k m n : Nat) (hm : m < 256 ^ k) (hn : n < 256 ^ k)
    (h : natToBytes k m = natToBytes k n) : m = n := by
  have h1 := bytesToNat_natToBytes k m hm
  have h2 := bytesToNat_natToBytes k n hn
  rw [h] at h1
  omega

theorem bytesToNat_lt (xs : List Nat) (hx : ∀ b ∈ xs, b < 256) :
    bytesToNat xs < 256 ^ xs.length := by
  induction xs using List.reverseRecOn with
  | nil => simp [bytesToNat]
  | append_singleton xs b ih =>
    rw [bytesToNat_append_byte]
    have hb : b < 256 := hx b (by simp)
    have := ih (fun a ha => hx a (by simp [ha]))
    simp [List.length_append]
    calc bytesToNat xs * 256 + b < (bytesToNat xs + 1) * 256 := by omega
      _ ≤ 256 ^ xs.length * 256 := by
        have : bytesToNat xs + 1 ≤ 256 ^ xs.length := this
        exact Nat.mul_le_mul_right 256 this
      _ = 256 ^ (xs.length + 1) := by ring

theorem natToBytes_bytesToNat (xs : List Nat) (hx : ∀ b ∈ xs, b < 256) :
    natToBytes xs.length (bytesToNat xs) = xs := by
  induction xs using List.reverseRecOn with
  | nil => rfl
  | append_singleton xs b ih =>
    have hb : b < 256 := hx b (by simp)
    rw [bytesToNat_append_byte]
    simp [List.length_append]
    show natToBytes (xs.length + 1) (bytesToNat xs * 256 + b) = xs ++ [b]
    rw [natToBytes]
    have hd : (bytesToNat xs * 256 + b) / 256 = bytesToNat xs := by omega
    have hm : (bytesToNat xs * 256 + b) % 256 = b := by omega
    rw [hd, hm, ih (fun a ha => hx a (by simp [ha]))]

theorem bytesToNat_inj (xs ys : List Nat) (hlen : xs.length = ys.length)
    (hx : ∀ b ∈ xs, b < 256) (hy : ∀ b ∈ ys, b < 256)
    (h : bytesToNat xs = bytesToNat ys) : xs = ys := by
  have h1 := natToBytes_bytesToNat xs hx
  have h2 := natToBytes_bytesToNat ys hy
  rw [← h1, ← h2, hlen, h]

theorem Char_toNat_lt (c : Char) : c.toNat < 1114112 := by
  rcases c.valid with h | h
  · exact Nat.lt_trans h (by norm_num)
  · exact h.2

theorem utf8Char_lt (c : Char) : ∀ b ∈ utf8Char c, b < 256 := by
  have := Char_toNat_lt c
  intro b hb
  simp [utf8Char] at hb
  split at hb <;> [skip; split at hb] <;> [skip; skip; split at hb] <;>
    simp at hb <;> omega

theorem utf8Bytes_lt (s : String) : ∀ b ∈ utf8Bytes s, b < 256 := by
  intro b hb
  simp [utf8Bytes] at hb
  obtain ⟨c, _, hc⟩ := hb
  exact utf8Char_lt c b hc

theorem String_mk_data (s : String) : String.mk s.data = s := rfl

theorem Char_eq_of_toNat_eq {a b : Char} (h : a.toNat = b.toNat) : a = b := by
  rcases a with ⟨⟨av⟩, ha⟩
  rcases b with ⟨⟨bv⟩, hb⟩
  simp only [Char.toNat, UInt32.toNat] at h
  congr 2
  exact BitVec.toNat_injective h

theorem Char_ofNat_toNat (c : Char) (h : c.toNat < 55296) : Char.ofNat c.toNat = c :=
  Char_eq_of_toNat_eq (Char_toNat_ofNat c.toNat h)

theorem hexVal_digitChar {n : Nat} (h : n < 10) : hexVal (digitChar n) = some n := by
  have := digitChar_toNat h
  simp [hexVal, this]
  omega

theorem hexVal_hexChar : ∀ n < 16, hexVal (hexChar n) = some n := by decide

theorem parseStringChars_escape (s rest : List Char) :
    parseStringChars (escapeString s ++ rest) = some (s, rest) := by
  induction s with
  | nil => rfl
  | cons c cs ih =>
    show parseStringChars ((escChar c ++ escapeString cs) ++ rest) = some (c :: cs, rest)
    rw [List.append_assoc]
    by_cases h1 : c = '"'
    · subst h1
      rw [show escChar '"' = ['\\', '"'] from rfl]
      simp [parseStringChars, parseEscape, ih]
    · by_cases h2 : c = '\\'
      · subst h2
        rw [show escChar '\\' = ['\\', '\\'] from rfl]
        simp [parseStringChars, parseEscape, ih]
      · by_cases h3 : c = '\n'
        · subst h3
          rw [show escChar '\n' = ['\\', 'n'] from rfl]
          simp [parseStringChars, parseEscape, ih]
        · by_cases h4 : c = '\r'
          · subst h4
            rw [show escChar '\r' = ['\\', 'r'] from rfl]
            simp [parseStringChars, parseEscape, ih]
          · by_cases h5 : c = '\t'
            · subst h5
              rw [show escChar '\t' = ['\\', 't'] from rfl]
              simp [parseStringChars, parseEscape, ih]
            · by_cases h6 : c.toNat < 32
              · have hesc : escChar c =
                    ['\\', 'u', '0', '0', digitChar (c.toNat / 16), hexChar (c.toNat % 16)] := by
                  simp [escChar, h1, h2, h3, h4, h5, h6]
                rw [hesc]
                have hv3 : hexVal (digitChar (c.toNat / 16)) = some (c.toNat / 16) :=
                  hexVal_digitChar (by omega)
                have hv4 : hexVal (hexChar (c.toNat % 16)) = some (c.toNat % 16) :=
                  hexVal_hexChar (c.toNat % 16) (by omega)
                have hzero : hexVal '0' = some 0 := by decide
                simp [parseStringChars, parseEscape, hv3, hv4, hzero]
                refine ⟨by omega, ih, ?_⟩
                have he : c.toNat / 16 * 16 + c.toNat % 16 = c.toNat := by omega
                rw [he]
                exact Char_ofNat_toNat c (by omega)
              · have hesc : escChar c = [c] := by
                  simp [escChar, h1, h2, h3, h4, h5, h6]
                rw [hesc]
                simp [parseStringChars, h1, h2, h6, ih]

theorem skipWs_cons {c : Char} (cs : List Char) (h : isWsChar c = false) :
    skipWs (c :: cs) = c :: cs := by
  simp [skipWs, h]

theorem numStart_facts (c : Char) (h : c = '-' ∨ isDigitChar c = true) :
    isWsChar c = false ∧ c ≠ ']' ∧ c ≠ 'n' ∧ c ≠ 't' ∧ c ≠ 'f' ∧ c ≠ '"' ∧
      c ≠ '[' ∧ c ≠ '\x7b' := by
  rcases h with h | h
  · subst h
    refine ⟨by decide, by decide, by decide, by decide, by decide, by decide, by decide, by decide⟩
  · refine ⟨?_, fun heq => ?_, fun heq => ?_, fun heq => ?_, fun heq => ?_, fun heq => ?_,
      fun heq => ?_, fun heq => ?_⟩
    · simp [isWsChar]
      refine ⟨⟨⟨fun heq => ?_, fun heq => ?_⟩, fun heq => ?_⟩, fun heq => ?_⟩ <;>
        (subst heq; exact absurd h (by decide))
    all_goals subst heq; exact absurd h (by decide)

theorem printChars_head (v : Json) (hwf : Json.wf v = true) :
    ∃ c cs, printChars v = c :: cs ∧ isWsChar c = false ∧ c ≠ ']' := by
  cases v with
  | null => exact ⟨'n', _, rfl, by decide, by decide⟩
  | bool b =>
    cases b with
    | true => exact ⟨'t', _, rfl, by decide, by decide⟩
    | false => exact ⟨'f', _, rfl, by decide, by decide⟩
  | num lit =>
    simp [Json.wf] at hwf
    have helim := isValidNumLit_elim lit.data hwf
    obtain ⟨c, cs', hcons, hstart⟩ := parseNumberBody_head lit.data lit.data [] helim
    have hf := numStart_facts c hstart
    refine ⟨c, cs', ?_, hf.1, hf.2.1⟩
    show lit.data = c :: cs'
    exact hcons
  | str s => exact ⟨'"', _, rfl, by decide, by decide⟩
  | arr xs => exact ⟨'[', _, rfl, by decide, by decide⟩
  | obj fs => exact ⟨'\x7b', _, rfl, by decide, by decide⟩

theorem printElemsRest_head (l : JsonList) (rest : List Char) :
    noNumContHead (printElemsRest l ++ rest) = true ∧
      skipWs (printElemsRest l ++ rest) = printElemsRest l ++ rest := by
  cases l with
  | nil =>
    constructor
    · show noNumContHead (']' :: rest) = true
      simp [noNumContHead]
      decide
    · show skipWs (']' :: rest) = ']' :: rest
      exact skipWs_cons rest (by decide)
  | cons v l' =>
    constructor
    · show noNumContHead (',' :: _) = true
      simp [noNumContHead]
      decide
    · show skipWs (',' :: _) = ',' :: _
      exact skipWs_cons _ (by decide)

theorem printMembersRest_head (fs : JsonFields) (rest : List Char) :
    noNumContHead (printMembersRest fs ++ rest) = true ∧
      skipWs (printMembersRest fs ++ rest) = printMembersRest fs ++ rest := by
  cases fs with
  | nil =>
    constructor
    · show noNumContHead ('\x7d' :: rest) = true
      simp [noNumContHead]
      decide
    · show skipWs ('\x7d' :: rest) = '\x7d' :: rest
      exact skipWs_cons rest (by decide)
  | fcons k v fs' =>
    constructor
    · show noNumContHead (',' :: _) = true
      simp [noNumContHead]
      decide
    · show skipWs (',' :: _) = ',' :: _
      exact skipWs_cons _ (by decide)

mutual

theorem printChars_parse : ∀ (v : Json), Json.wf v = true →
    ∀ fuel, Json.need v ≤ fuel → ∀ rest, noNumContHead rest = true →
    parseValue fuel (printChars v ++ rest) = some (v, rest)
  | .null, _, fuel, hfuel, rest, _ => by
    cases fuel with
    | zero => simp [Json.need] at hfuel
    | succ f => simp [printChars, parseValue]
  | .bool true, _, fuel, hfuel, rest, _ => by
    cases fuel with
    | zero => simp [Json.need] at hfuel
    | succ f => simp [printChars, parseValue]
  | .bool false, _, fuel, hfuel, rest, _ => by
    cases fuel with
    | zero => simp [Json.need] at hfuel
    | succ f => simp [printChars, parseValue]
  | .num lit, hwf, fuel, hfuel, rest, hrest => by
    cases fuel with
    | zero => simp [Json.need] at hfuel
    | succ f =>
      simp [Json.wf] at hwf
      have helim := isValidNumLit_elim lit.data hwf
      obtain ⟨c, cs', hcons, hstart⟩ := parseNumberBody_head lit.data lit.data [] helim
      have hne := numStart_facts c hstart
      have hext := parseNumberBody_extend lit.data lit.data rest helim hrest
      show parseValue (f + 1) (printChars (.num lit) ++ rest) = some (.num lit, rest)
      rw [show printChars (.num lit) = lit.data from rfl]
      rw [hcons] at hext ⊢
      simp only [List.cons_append] at hext ⊢
      simp [parseValue, hne.2.2.1, hne.2.2.2.1, hne.2.2.2.2.1, hne.2.2.2.2.2.1,
        hne.2.2.2.2.2.2.1, hne.2.2.2.2.2.2.2, hext]
      rw [show (c :: cs' : List Char) = lit.data from hcons.symm]
  | .str s, _, fuel, hfuel, rest, _ => by
    cases fuel with
    | zero => simp [Json.need] at hfuel
    | succ f =>
      show parseValue (f + 1) (('"' :: escapeString s.data) ++ rest) = some (.str s, rest)
      simp only [List.cons_append]
      simp [parseValue, parseStringChars_escape s.data rest, String_mk_data]
  | .arr xs, hwf, fuel, hfuel, rest, _ => by
    cases fuel with
    | zero => simp [Json.need] at hfuel
    | succ f =>
      simp [Json.wf] at hwf
      simp [Json.need] at hfuel
      show parseValue (f + 1) (('[' :: printElems xs) ++ rest) = some (.arr xs, rest)
      simp only [List.cons_append]
      simp only [parseValue]
      rw [if_pos trivial]
      obtain ⟨c0, cs0, he, hws⟩ := printElems_head xs hwf
      rw [he, List.cons_append, skipWs_cons _ hws, ← List.cons_append, ← he]
      exact printElems_parse xs hwf f (by omega) rest
  | .obj fs, hwf, fuel, hfuel, rest, _ => by
    cases fuel with
    | zero => simp [Json.need] at hfuel
    | succ f =>
      simp [Json.wf] at hwf
      simp [Json.need] at hfuel
      show parseValue (f + 1) (('\x7b' :: printMembers fs) ++ rest) = some (.obj fs, rest)
      simp only [List.cons_append]
      simp only [parseValue]
      rw [if_pos trivial]
      obtain ⟨c0, cs0, he, hws⟩ := printMembers_head fs
      rw [he, List.cons_append, skipWs_cons _ hws, ← List.cons_append, ← he]
      exact printMembers_parse fs hwf f (by omega) rest

theorem printElems_head : ∀ (xs : JsonList), JsonList.wf xs = true →
    ∃ c cs, printElems xs = c :: cs ∧ isWsChar c = false
  | .nil, _ => ⟨']', [], rfl, by decide⟩
  | .cons v l, hwf => by
    simp [JsonList.wf] at hwf
    obtain ⟨c0, cs0, he, hws, _⟩ := printChars_head v hwf.1
    exact ⟨c0, cs0 ++ printElemsRest l, by simp [printElems, he], hws⟩

theorem printMembers_head : ∀ (fs : JsonFields),
    ∃ c cs, printMembers fs = c :: cs ∧ isWsChar c = false
  | .nil => ⟨'\x7d', [], rfl, by decide⟩
  | .fcons k v fs =>
    ⟨'"', escapeString k.data ++ (':' :: printChars v) ++ printMembersRest fs,
      by simp [printMembers], by decide⟩

theorem printElems_parse : ∀ (xs : JsonList), JsonList.wf xs = true →
    ∀ fuel, JsonList.need xs ≤ fuel → ∀ rest,
    parseElems fuel (printElems xs ++ rest) = some (.arr xs, rest)
  | .nil, _, fuel, hfuel, rest => by
    cases fuel with
    | zero => simp [JsonList.need] at hfuel
    | succ f =>
      show parseElems (f + 1) (']' :: rest) = some (.arr .nil, rest)
      simp [parseElems]
  | .cons v l, hwf, fuel, hfuel, rest => by
    cases fuel with
    | zero => simp [JsonList.need] at hfuel
    | succ f =>
      simp [JsonList.wf] at hwf
      simp [JsonList.need] at hfuel
      show parseElems (f + 1) ((printChars v ++ printElemsRest l) ++ rest) =
        some (.arr (.cons v l), rest)
      rw [List.append_assoc]
      obtain ⟨c0, cs0, he, hws, hrb⟩ := printChars_head v hwf.1
      have h1 := printChars_parse v hwf.1 f (by omega) (printElemsRest l ++ rest)
        (printElemsRest_head l rest).1
      have h2 := (printElemsRest_head l rest).2
      have h3 := printElemsRest_parse l hwf.2 f (by omega) rest
      rw [he, List.cons_append]
      simp only [parseElems]
      rw [if_neg hrb, ← List.cons_append, ← he]
      simp [h1, h2, h3]

theorem printElemsRest_parse : ∀ (l : JsonList), JsonList.wf l = true →
    ∀ fuel, JsonList.need l ≤ fuel → ∀ rest,
    parseElemsRest fuel (printElemsRest l ++ rest) = some (l, rest)
  | .nil, _, fuel, hfuel, rest => by
    cases fuel with
    | zero => simp [JsonList.need] at hfuel
    | succ f =>
      show parseElemsRest (f + 1) (']' :: rest) = some (.nil, rest)
      simp [parseElemsRest]
  | .cons v l, hwf, fuel, hfuel, rest => by
    cases fuel with
    | zero => simp [JsonList.need] at hfuel
    | succ f =>
      simp [JsonList.wf] at hwf
      simp [JsonList.need] at hfuel
      show parseElemsRest (f + 1) ((',' :: (printChars v ++ printElemsRest l)) ++ rest) =
        some (.cons v l, rest)
      simp only [List.cons_append, List.append_assoc]
      simp only [parseElemsRest]
      rw [if_pos trivial]
      obtain ⟨c0, cs0, he, hws, _⟩ := printChars_head v hwf.1
      have h1 := printChars_parse v hwf.1 f (by omega) (printElemsRest l ++ rest)
        (printElemsRest_head l rest).1
      have h2 := (printElemsRest_head l rest).2
      have h3 := printElemsRest_parse l hwf.2 f (by omega) rest
      rw [he, List.cons_append, skipWs_cons _ hws, ← List.cons_append, ← he]
      simp [h1, h2, h3]

theorem printMembers_parse : ∀ (fs : JsonFields), JsonFields.wf fs = true →
    ∀ fuel, JsonFields.need fs ≤ fuel → ∀ rest,
    parseMembers fuel (printMembers fs ++ rest) = some (.obj fs, rest)
  | .nil, _, fuel, hfuel, rest => by
    cases fuel with
    | zero => simp [JsonFields.need] at hfuel
    | succ f =>
      show parseMembers (f + 1) ('\x7d' :: rest) = some (.obj .nil, rest)
      simp [parseMembers]
  | .fcons k v fs, hwf, fuel, hfuel, rest => by
    cases fuel with
    | zero => simp [JsonFields.need] at hfuel
    | succ f =>
      simp [JsonFields.wf] at hwf
      simp [JsonFields.need] at hfuel
      show parseMembers (f + 1)
        ((('"' :: escapeString k.data) ++ (':' :: printChars v) ++ printMembersRest fs) ++ rest) =
        some (.obj (.fcons k v fs), rest)
      simp only [List.cons_append, List.append_assoc]
      simp only [parseMembers]
      rw [if_pos trivial]
      obtain ⟨c0, cs0, he, hws, _⟩ := printChars_head v hwf.1
      have h0 := parseStringChars_escape k.data
        (':' :: (printChars v ++ (printMembersRest fs ++ rest)))
      have hc : skipWs (':' :: (printChars v ++ (printMembersRest fs ++ rest))) =
          ':' :: (printChars v ++ (printMembersRest fs ++ rest)) := skipWs_cons _ (by decide)
      have h1 := printChars_parse v hwf.1 f (by omega) (printMembersRest fs ++ rest)
        (printMembersRest_head fs rest).1
      have h2 := (printMembersRest_head fs rest).2
      have h3 := printMembersRest_parse fs hwf.2 f (by omega) rest
      have hv : skipWs (printChars v ++ (printMembersRest fs ++ rest)) =
          printChars v ++ (printMembersRest fs ++ rest) := by
        rw [he, List.cons_append, skipWs_cons _ hws, ← List.cons_append]
      simp [h0, hc, hv, h1, h2, h3, String_mk_data]

theorem printMembersRest_parse : ∀ (fs : JsonFields), JsonFields.wf fs = true →
    ∀ fuel, JsonFields.need fs ≤ fuel → ∀ rest,
    parseMembersRest fuel (printMembersRest fs ++ rest) = some (fs, rest)
  | .nil, _, fuel, hfuel, rest => by
    cases fuel with
    | zero => simp [JsonFields.need] at hfuel
    | succ f =>
      show parseMembersRest (f + 1) ('\x7d' :: rest) = some (.nil, rest)
      simp [parseMembersRest]
  | .fcons k v fs, hwf, fuel, hfuel, rest => by
    cases fuel with
    | zero => simp [JsonFields.need] at hfuel
    | succ f =>
      simp [JsonFields.wf] at hwf
      simp [JsonFields.need] at hfuel
      show parseMembersRest (f + 1)
        ((',' :: (('"' :: escapeString k.data) ++ (':' :: printChars v) ++ printMembersRest fs)) ++
          rest) = some (.fcons k v fs, rest)
      simp only [List.cons_append, List.append_assoc]
      simp only [parseMembersRest]
      rw [if_pos trivial]
      obtain ⟨c0, cs0, he, hws, _⟩ := printChars_head v hwf.1
      have hq : skipWs ('"' :: (escapeString k.data ++
          (':' :: (printChars v ++ (printMembersRest fs ++ rest))))) =
          '"' :: (escapeString k.data ++
          (':' :: (printChars v ++ (printMembersRest fs ++ rest)))) := skipWs_cons _ (by decide)
      have h0 := parseStringChars_escape k.data
        (':' :: (printChars v ++ (printMembersRest fs ++ rest)))
      have hc : skipWs (':' :: (printChars v ++ (printMembersRest fs ++ rest))) =
          ':' :: (printChars v ++ (printMembersRest fs ++ rest)) := skipWs_cons _ (by decide)
      have h1 := printChars_parse v hwf.1 f (by omega) (printMembersRest fs ++ rest)
        (printMembersRest_head fs rest).1
      have h2 := (printMembersRest_head fs rest).2
      have h3 := printMembersRest_parse fs hwf.2 f (by omega) rest
      have hv : skipWs (printChars v ++ (printMembersRest fs ++ rest)) =
          printChars v ++ (printMembersRest fs ++ rest) := by
        rw [he, List.cons_append, skipWs_cons _ hws, ← List.cons_append]
      simp [hq, h0, hc, hv, h1, h2, h3, String_mk_data]

end

theorem parseIntPart_shape (cs1 ip cs2 : List Char) (h : parseIntPart cs1 = some (ip, cs2)) :
    ip = ['0'] ∨ ∃ d ds, ip = d :: ds ∧ isDigitChar d = true ∧ d ≠ '0' ∧
      allDigits ds = true := by
  cases cs1 with
  | nil => simp [parseIntPart] at h
  | cons c cs =>
    by_cases h0 : c = '0'
    · simp [parseIntPart, h0] at h
      exact Or.inl h.1.symm
    · by_cases hd : isDigitChar c = true
      · rcases htake : takeDigits cs with ⟨ds, r⟩
        simp [parseIntPart, h0, hd, htake] at h
        refine Or.inr ⟨c, ds, h.1.symm, hd, h0, ?_⟩
        have := takeDigits_all cs
        rw [htake] at this
        exact this
      · simp [parseIntPart, h0, hd] at h

theorem parseIntPart_make (ip X : List Char)
    (hshape : ip = ['0'] ∨ ∃ d ds, ip = d :: ds ∧ isDigitChar d = true ∧ d ≠ '0' ∧
      allDigits ds = true)
    (hX : noDigitHead X = true) : parseIntPart (ip ++ X) = some (ip, X) := by
  rcases hshape with h | ⟨d, ds, hcons, hd, h0, hall⟩
  · subst h
    simp [parseIntPart]
  · subst hcons
    simp [parseIntPart, h0, hd, takeDigits_append ds X hall hX]

theorem parseFracPart_shape2 (cs2 fp cs3 : List Char)
    (h : parseFracPart cs2 = some (fp, cs3)) :
    fp = [] ∨ ∃ ds, fp = '.' :: ds ∧ ds ≠ [] ∧ allDigits ds = true := by
  cases cs2 with
  | nil =>
    simp [parseFracPart] at h
    exact Or.inl h.1
  | cons c cs =>
    by_cases hdot : c = '.'
    · rcases htake : takeDigits cs with ⟨ds, r⟩
      cases ds with
      | nil => simp [parseFracPart, hdot, htake] at h
      | cons d ds' =>
        simp [parseFracPart, hdot, htake] at h
        refine Or.inr ⟨d :: ds', h.1.symm, by simp, ?_⟩
        have := takeDigits_all cs
        rw [htake] at this
        exact this
    · simp [parseFracPart, hdot] at h
      exact Or.inl h.1

theorem parseFracPart_make (fp X : List Char)
    (hshape : fp = [] ∨ ∃ ds, fp = '.' :: ds ∧ ds ≠ [] ∧ allDigits ds = true)
    (hXd : noDigitHead X = true) (hXdot : ∀ cs, X ≠ '.' :: cs) :
    parseFracPart (fp ++ X) = some (fp, X) := by
  rcases hshape with h | ⟨ds, hcons, hne, hall⟩
  · subst h
    cases X with
    | nil => rfl
    | cons c cs =>
      have hdot : c ≠ '.' := fun heq => hXdot cs (by rw [heq])
      simp [parseFracPart, hdot]
  · subst hcons
    have := takeDigits_append ds X hall hXd
    cases ds with
    | nil => exact absurd rfl hne
    | cons d ds' =>
      simp only [List.cons_append] at this
      simp [parseFracPart, this]

theorem parseExpPart_shape2 (cs3 ep cs4 : List Char)
    (h : parseExpPart cs3 = some (ep, cs4)) :
    ep = [] ∨
      (∃ e s ds, ep = e :: s :: ds ∧ (e = 'e' ∨ e = 'E') ∧ (s = '+' ∨ s = '-') ∧
        ds ≠ [] ∧ allDigits ds = true) ∨
      (∃ e ds, ep = e :: ds ∧ (e = 'e' ∨ e = 'E') ∧ ds ≠ [] ∧ allDigits ds = true ∧
        noDigitHead ds = false) := by
  cases cs3 with
  | nil =>
    simp [parseExpPart] at h
    exact Or.inl h.1
  | cons e cs =>
    by_cases he : e = 'e' ∨ e = 'E'
    · cases cs with
      | nil => simp [parseExpPart, he] at h
      | cons s cs' =>
        by_cases hs : s = '+' ∨ s = '-'
        · rcases htake : takeDigits cs' with ⟨ds, r⟩
          cases ds with
          | nil => simp [parseExpPart, he, hs, htake] at h
          | cons d ds' =>
            simp [parseExpPart, he, hs, htake] at h
            refine Or.inr (Or.inl ⟨e, s, d :: ds', h.1.symm, he, hs, by simp, ?_⟩)
            have := takeDigits_all cs'
            rw [htake] at this
            exact this
        · rcases htake : takeDigits (s :: cs') with ⟨ds, r⟩
          cases ds with
          | nil => simp [parseExpPart, he, hs, htake] at h
          | cons d ds' =>
            simp [parseExpPart, he, hs, htake] at h
            have hall := takeDigits_all (s :: cs')
            rw [htake] at hall
            refine Or.inr (Or.inr ⟨e, d :: ds', h.1.symm, he, by simp, hall, ?_⟩)
            simp [allDigits] at hall
            simp [noDigitHead, hall.1]
    · simp [parseExpPart, he] at h
      exact Or.inl h.1

theorem parseExpPart_make (ep X : List Char)
    (hshape : ep = [] ∨
      (∃ e s ds, ep = e :: s :: ds ∧ (e = 'e' ∨ e = 'E') ∧ (s = '+' ∨ s = '-') ∧
        ds ≠ [] ∧ allDigits ds = true) ∨
      (∃ e ds, ep = e :: ds ∧ (e = 'e' ∨ e = 'E') ∧ ds ≠ [] ∧ allDigits ds = true ∧
        noDigitHead ds = false))
    (hX : noNumContHead X = true) : parseExpPart (ep ++ X) = some (ep, X) := by
  have hXd := noDigitHead_of_noNumContHead hX
  rcases hshape with h | ⟨e, s, ds, hcons, he, hs, hne, hall⟩ | ⟨e, ds, hcons, he, hne, hall, _⟩
  · subst h
    cases X with
    | nil => rfl
    | cons c cs =>
      simp [noNumContHead, numCont] at hX
      obtain ⟨⟨⟨⟨⟨hd2, hdot⟩, hee⟩, hEE⟩, hplus⟩, hminus⟩ := hX
      simp [parseExpPart, hee, hEE]
  · subst hcons
    have := takeDigits_append ds X hall hXd
    cases ds with
    | nil => exact absurd rfl hne
    | cons d ds' =>
      simp only [List.cons_append] at this
      simp [parseExpPart, he, hs, this]
  · subst hcons
    cases ds with
    | nil => exact absurd rfl hne
    | cons d ds' =>
      have hd : isDigitChar d = true := by
        simp [allDigits] at hall
        exact hall.1
      have hsne : ¬(d = '+' ∨ d = '-') := by
        rintro (heq | heq) <;> (subst heq; exact absurd hd (by decide))
      have := takeDigits_append (d :: ds') X hall hXd
      simp only [List.cons_append] at this
      simp [parseExpPart, he, hsne, this]

theorem parseNumberBody_self (cs lit r : List Char)
    (h : parseNumberBody cs = some (lit, r)) : parseNumberBody lit = some (lit, []) := by
  cases cs with
  | nil => simp [parseNumberBody, parseIntPart] at h
  | cons c cs' =>
    rcases hip : parseIntPart (if c = '-' then cs' else c :: cs') with _ | ⟨ip, cs2⟩
    · exfalso
      by_cases hc : c = '-' <;> simp [parseNumberBody, hc] at h <;> simp [hc] at hip <;>
        simp [hip] at h
    · rcases hfp : parseFracPart cs2 with _ | ⟨fp, cs3⟩
      · exfalso
        by_cases hc : c = '-' <;> simp [parseNumberBody, hc] at h <;> simp [hc] at hip <;>
          simp [hip, hfp] at h
      · rcases hep : parseExpPart cs3 with _ | ⟨ep, cs4⟩
        · exfalso
          by_cases hc : c = '-' <;> simp [parseNumberBody, hc] at h <;> simp [hc] at hip <;>
            simp [hip, hfp, hep] at h
        · have hmain : lit = (if c = '-' then ['-'] else []) ++ ip ++ fp ++ ep := by
            by_cases hc : c = '-' <;> simp [parseNumberBody, hc] at h <;> simp [hc] at hip <;>
              simp [hip, hfp, hep] at h <;> simp [hc] <;> exact h.1.symm
          have hips := parseIntPart_shape _ _ _ hip
          have hfps := parseFracPart_shape2 _ _ _ hfp
          have heps := parseExpPart_shape2 _ _ _ hep
          have hepD : noDigitHead (ep : List Char) = true := by
            rcases heps with hnil | ⟨e, s, ds, hcons, he, _, _, _⟩ | ⟨e, ds, hcons, he, _, _, _⟩
            · simp [hnil, noDigitHead]
            · rcases he with he | he <;> simp [hcons, he, noDigitHead, isDigitChar]
            · rcases he with he | he <;> simp [hcons, he, noDigitHead, isDigitChar]
          have hepDot : ∀ cs0, (ep : List Char) ≠ '.' :: cs0 := by
            rcases heps with hnil | ⟨e, s, ds, hcons, he, _, _, _⟩ | ⟨e, ds, hcons, he, _, _, _⟩
            · simp [hnil]
            · rcases he with he | he <;> simp [hcons, he]
            · rcases he with he | he <;> simp [hcons, he]
          have hfpep : noDigitHead (fp ++ ep) = true := by
            rcases hfps with hnil | ⟨ds, hcons, _, _⟩
            · simp [hnil]
              exact hepD
            · simp [hcons, noDigitHead, isDigitChar]
          have hipm := parseIntPart_make ip (fp ++ ep) hips hfpep
          have hfpm := parseFracPart_make fp ep hfps hepD hepDot
          have hepm := parseExpPart_make ep [] heps rfl
          simp only [List.append_nil] at hepm
          rw [hmain]
          by_cases hc : c = '-'
          · simp only [hc, if_pos]
            show parseNumberBody ('-' :: (ip ++ fp ++ ep)) = some ('-' :: (ip ++ fp ++ ep), [])
            simp only [List.append_assoc] at hipm ⊢
            simp [parseNumberBody, hipm, hfpm, hepm]
          · simp only [if_neg hc, List.nil_append]
            have hhead : ∃ d ds, ip = d :: ds ∧ d ≠ '-' := by
              rcases hips with hzero | ⟨d, ds, hcons, hd, _, _⟩
              · exact ⟨'0', [], hzero, by decide⟩
              · refine ⟨d, ds, hcons, fun heq => ?_⟩
                rw [heq] at hd
                exact absurd hd (by decide)
            obtain ⟨d, ds, hcons, hdm⟩ := hhead
            rw [hcons]
            show parseNumberBody (((d :: ds) ++ fp ++ ep)) = some ((d :: ds) ++ fp ++ ep, [])
            rw [← hcons]
            have : parseNumberBody (ip ++ fp ++ ep) =
                match parseIntPart (ip ++ fp ++ ep) with
                | none => none
                | some (ip', cs2') =>
                  match parseFracPart cs2' with
                  | none => none
                  | some (fp', cs3') =>
                    match parseExpPart cs3' with
                    | none => none
                    | some (ep', cs4') => some ([] ++ ip' ++ fp' ++ ep', cs4') := by
              rw [hcons]
              simp only [List.cons_append]
              simp [parseNumberBody, hdm]
            rw [this]
            simp only [List.append_assoc] at hipm ⊢
            simp [hipm, hfpm, hepm]

mutual

theorem parseValue_wf : ∀ (fuel : Nat) (cs : List Char) (v : Json) (rest : List Char),
    parseValue fuel cs = some (v, rest) → Json.wf v = true
  | 0, cs, v, rest => by
    intro h
    simp [parseValue] at h
  | fuel + 1, [], v, rest => by
    intro h
    simp [parseValue] at h
  | fuel + 1, c :: cs, v, rest => by
    intro h
    simp only [parseValue] at h
    by_cases h1 : c = 'n'
    · rw [if_pos h1] at h
      split at h
      · simp at h
        obtain ⟨hv, -⟩ := h
        subst hv
        rfl
      · exact absurd h (by simp)
    · rw [if_neg h1] at h
      by_cases h2 : c = 't'
      · rw [if_pos h2] at h
        split at h
        · simp at h
          obtain ⟨hv, -⟩ := h
          subst hv
          rfl
        · exact absurd h (by simp)
      · rw [if_neg h2] at h
        by_cases h3 : c = 'f'
        · rw [if_pos h3] at h
          split at h
          · simp at h
            obtain ⟨hv, -⟩ := h
            subst hv
            rfl
          · exact absurd h (by simp)
        · rw [if_neg h3] at h
          by_cases h4 : c = '"'
          · rw [if_pos h4] at h
            rcases hps : parseStringChars cs with _ | ⟨r1, r2⟩
            · simp only [hps] at h
              exact absurd h (by simp)
            · simp only [hps] at h
              simp at h
              obtain ⟨hv, -⟩ := h
              subst hv
              rfl
          · rw [if_neg h4] at h
            by_cases h5 : c = '['
            · rw [if_pos h5] at h
              exact parseElems_wf fuel (skipWs cs) v rest h
            · rw [if_neg h5] at h
              by_cases h6 : c = '\x7b'
              · rw [if_pos h6] at h
                exact parseMembers_wf fuel (skipWs cs) v rest h
              · rw [if_neg h6] at h
                rcases hnb : parseNumberBody (c :: cs) with _ | ⟨lit, r⟩
                · simp only [hnb] at h
                  exact absurd h (by simp)
                · simp only [hnb] at h
                  simp at h
                  obtain ⟨hv, -⟩ := h
                  subst hv
                  show Json.wf (.num (String.mk lit)) = true
                  have hself := parseNumberBody_self (c :: cs) lit r hnb
                  simp [Json.wf, isValidNumLit]
                  rw [hself]

theorem parseElems_wf : ∀ (fuel : Nat) (cs : List Char) (v : Json) (rest : List Char),
    parseElems fuel cs = some (v, rest) → Json.wf v = true
  | 0, cs, v, rest => by
    intro h
    simp [parseElems] at h
  | fuel + 1, [], v, rest => by
    intro h
    simp [parseElems] at h
  | fuel + 1, c :: cs, v, rest => by
    intro h
    simp only [parseElems] at h
    by_cases h1 : c = ']'
    · rw [if_pos h1] at h
      simp at h
      obtain ⟨hv, -⟩ := h
      subst hv
      rfl
    · rw [if_neg h1] at h
      rcases hpv : parseValue fuel (c :: cs) with _ | ⟨v1, r1⟩
      · simp only [hpv] at h
        exact absurd h (by simp)
      · simp only [hpv] at h
        rcases hpr : parseElemsRest fuel (skipWs r1) with _ | ⟨l, r2⟩
        · simp only [hpr] at h
          exact absurd h (by simp)
        · simp only [hpr] at h
          simp at h
          obtain ⟨hv, -⟩ := h
          subst hv
          have hw1 := parseValue_wf fuel (c :: cs) v1 r1 hpv
          have hw2 := parseElemsRest_wf fuel (skipWs r1) l r2 hpr
          simp [Json.wf, JsonList.wf, hw1, hw2]

theorem parseElemsRest_wf : ∀ (fuel : Nat) (cs : List Char) (l : JsonList) (rest : List Char),
    parseElemsRest fuel cs = some (l, rest) → JsonList.wf l = true
  | 0, cs, l, rest => by
    intro h
    simp [parseElemsRest] at h
  | fuel + 1, [], l, rest => by
    intro h
    simp [parseElemsRest] at h
  | fuel + 1, c :: cs, l, rest => by
    intro h
    simp only [parseElemsRest] at h
    by_cases h1 : c = ']'
    · rw [if_pos h1] at h
      simp at h
      obtain ⟨hv, -⟩ := h
      subst hv
      rfl
    · rw [if_neg h1] at h
      by_cases h2 : c = ','
      · rw [if_pos h2] at h
        rcases hpv : parseValue fuel (skipWs cs) with _ | ⟨v1, r1⟩
        · simp only [hpv] at h
          exact absurd h (by simp)
        · simp only [hpv] at h
          rcases hpr : parseElemsRest fuel (skipWs r1) with _ | ⟨l1, r2⟩
          · simp only [hpr] at h
            exact absurd h (by simp)
          · simp only [hpr] at h
            simp at h
            obtain ⟨hv, -⟩ := h
            subst hv
            have hw1 := parseValue_wf fuel (skipWs cs) v1 r1 hpv
            have hw2 := parseElemsRest_wf fuel (skipWs r1) l1 r2 hpr
            simp [JsonList.wf, hw1, hw2]
      · rw [if_neg h2] at h
        exact absurd h (by simp)

theorem parseMembers_wf : ∀ (fuel : Nat) (cs : List Char) (v : Json) (rest : List Char),
    parseMembers fuel cs = some (v, rest) → Json.wf v = true
  | 0, cs, v, rest => by
    intro h
    simp [parseMembers] at h
  | fuel + 1, [], v, rest => by
    intro h
    simp [parseMembers] at h
  | fuel + 1, c :: cs, v, rest => by
    intro h
    simp only [parseMembers] at h
    by_cases h1 : c = '\x7d'
    · rw [if_pos h1] at h
      simp at h
      obtain ⟨hv, -⟩ := h
      subst hv
      rfl
    · rw [if_neg h1] at h
      by_cases h2 : c = '"'
      · rw [if_pos h2] at h
        rcases hps : parseStringChars cs with _ | ⟨k, r0⟩
        · simp only [hps] at h
          exact absurd h (by simp)
        · simp only [hps] at h
          split at h
          · next rest' heq =>
            rcases hpv : parseValue fuel (skipWs rest') with _ | ⟨v1, r1⟩
            · simp only [hpv] at h
              exact absurd h (by simp)
            · simp only [hpv] at h
              rcases hpr : parseMembersRest fuel (skipWs r1) with _ | ⟨fs, r2⟩
              · simp only [hpr] at h
                exact absurd h (by simp)
              · simp only [hpr] at h
                simp at h
                obtain ⟨hv, -⟩ := h
                subst hv
                have hw1 := parseValue_wf fuel (skipWs rest') v1 r1 hpv
                have hw2 := parseMembersRest_wf fuel (skipWs r1) fs r2 hpr
                simp [Json.wf, JsonFields.wf, hw1, hw2]
          · exact absurd h (by simp)
      · rw [if_neg h2] at h
        exact absurd h (by simp)

theorem parseMembersRest_wf : ∀ (fuel : Nat) (cs : List Char) (fs : JsonFields)
    (rest : List Char), parseMembersRest fuel cs = some (fs, rest) → JsonFields.wf fs = true
  | 0, cs, fs, rest => by
    intro h
    simp [parseMembersRest] at h
  | fuel + 1, [], fs, rest => by
    intro h
    simp [parseMembersRest] at h
  | fuel + 1, c :: cs, fs, rest => by
    intro h
    simp only [parseMembersRest] at h
    by_cases h1 : c = '\x7d'
    · rw [if_pos h1] at h
      simp at h
      obtain ⟨hv, -⟩ := h
      subst hv
      rfl
    · rw [if_neg h1] at h
      by_cases h2 : c = ','
      · rw [if_pos h2] at h
        split at h
        · next cs' heq =>
          rcases hps : parseStringChars cs' with _ | ⟨k, r0⟩
          · simp only [hps] at h
            exact absurd h (by simp)
          · simp only [hps] at h
            split at h
            · next rest' heq2 =>
              rcases hpv : parseValue fuel (skipWs rest') with _ | ⟨v1, r1⟩
              · simp only [hpv] at h
                exact absurd h (by simp)
              · simp only [hpv] at h
                rcases hpr : parseMembersRest fuel (skipWs r1) with _ | ⟨fs1, r2⟩
                · simp only [hpr] at h
                  exact absurd h (by simp)
                · simp only [hpr] at h
                  simp at h
                  obtain ⟨hv, -⟩ := h
                  subst hv
                  have hw1 := parseValue_wf fuel (skipWs rest') v1 r1 hpv
                  have hw2 := parseMembersRest_wf fuel (skipWs r1) fs1 r2 hpr
                  simp [JsonFields.wf, hw1, hw2]
            · exact absurd h (by simp)
        · exact absurd h (by simp)
      · rw [if_neg h2] at h
        exact absurd h (by simp)

end

theorem printChars_len_pos (v : Json) (h : Json.wf v = true) :
    1 ≤ (printChars v).length := by
  cases v with
  | null => simp [printChars]
  | bool b => cases b <;> simp [printChars]
  | num lit =>
    simp [Json.wf] at h
    rcases hd : lit.data with _ | ⟨c, cs⟩
    · rw [hd] at h
      simp [isValidNumLit, parseNumberBody, parseIntPart] at h
    · simp [printChars, hd]
  | str s => simp [printChars]
  | arr xs => simp [printChars]
  | obj fs => simp [printChars]

theorem printElemsRest_len_pos (l : JsonList) : 1 ≤ (printElemsRest l).length := by
  cases l <;> simp [printElemsRest]

theorem printMembersRest_len_pos (fs : JsonFields) : 1 ≤ (printMembersRest fs).length := by
  cases fs <;> simp [printMembersRest]

mutual

theorem need_le_printChars : ∀ (v : Json), Json.wf v = true →
    Json.need v ≤ (printChars v).length
  | .null, _ => by simp [Json.need, printChars]
  | .bool b, _ => by cases b <;> simp [Json.need, printChars]
  | .num lit, h => by
    simpa [Json.need, printChars] using printChars_len_pos (.num lit) h
  | .str s, _ => by simp [Json.need, printChars]
  | .arr xs, h => by
    have hx : JsonList.wf xs = true := by simpa [Json.wf] using h
    have h1 := needL_le_printElems xs hx
    simp only [Json.need, printChars, List.length_cons]
    omega
  | .obj fs, h => by
    have hx : JsonFields.wf fs = true := by simpa [Json.wf] using h
    have h1 := needF_le_printMembers fs hx
    simp only [Json.need, printChars, List.length_cons]
    omega

theorem needL_le_printElems : ∀ (l : JsonList), JsonList.wf l = true →
    JsonList.need l ≤ (printElems l).length
  | .nil, _ => by simp [JsonList.need, printElems]
  | .cons v l, h => by
    have hv : Json.wf v = true := by
      simp [JsonList.wf] at h
      exact h.1
    have hl : JsonList.wf l = true := by
      simp [JsonList.wf] at h
      exact h.2
    have h1 := need_le_printChars v hv
    have h2 := needL_le_printElemsRest l hl
    have h3 := printChars_len_pos v hv
    have h4 := printElemsRest_len_pos l
    simp only [JsonList.need, printElems, List.length_append]
    omega

theorem needL_le_printElemsRest : ∀ (l : JsonList), JsonList.wf l = true →
    JsonList.need l ≤ (printElemsRest l).length
  | .nil, _ => by simp [JsonList.need, printElemsRest]
  | .cons v l, h => by
    have hv : Json.wf v = true := by
      simp [JsonList.wf] at h
      exact h.1
    have hl : JsonList.wf l = true := by
      simp [JsonList.wf] at h
      exact h.2
    have h1 := need_le_printChars v hv
    have h2 := needL_le_printElemsRest l hl
    simp only [JsonList.need, printElemsRest, List.length_cons, List.length_append]
    omega

theorem needF_le_printMembers : ∀ (fs : JsonFields), JsonFields.wf fs = true →
    JsonFields.need fs ≤ (printMembers fs).length
  | .nil, _ => by simp [JsonFields.need, printMembers]
  | .fcons k v fs, h => by
    have hv : Json.wf v = true := by
      simp [JsonFields.wf] at h
      exact h.1
    have hfs : JsonFields.wf fs = true := by
      simp [JsonFields.wf] at h
      exact h.2
    have h1 := need_le_printChars v hv
    have h2 := needF_le_printMembersRest fs hfs
    have h3 := printMembersRest_len_pos fs
    simp only [JsonFields.need, printMembers, List.length_append, List.length_cons]
    omega

theorem needF_le_printMembersRest : ∀ (fs : JsonFields), JsonFields.wf fs = true →
    JsonFields.need fs ≤ (printMembersRest fs).length
  | .nil, _ => by simp [JsonFields.need, printMembersRest]
  | .fcons k v fs, h => by
    have hv : Json.wf v = true := by
      simp [JsonFields.wf] at h
      exact h.1
    have hfs : JsonFields.wf fs = true := by
      simp [JsonFields.wf] at h
      exact h.2
    have h1 := need_le_printChars v hv
    have h2 := needF_le_printMembersRest fs hfs
    simp only [JsonFields.need, printMembersRest, List.length_append, List.length_cons]
    omega

end

theorem skipWs_printChars (v : Json) (h : Json.wf v = true) :
    skipWs (printChars v) = printChars v := by
  obtain ⟨c, cs, hpc, hws, -⟩ := printChars_head v h
  rw [hpc]
  simp [skipWs, hws]

theorem jsonUnmarshal_printJson (j : Json) (h : Json.wf j = true) :
    jsonUnmarshal (printJson j) = some j := by
  have hdata : (printJson j).data = printChars j := rfl
  have hfuel : Json.need j ≤ 2 * (printChars j).length + 2 := by
    have := need_le_printChars j h
    omega
  have hparse := printChars_parse j h (2 * (printChars j).length + 2) hfuel [] (by rfl)
  rw [List.append_nil] at hparse
  unfold jsonUnmarshal
  rw [hdata, skipWs_printChars j h, hparse]
  simp [skipWs]

theorem decodeItem_roundtrip (it : STKCallbackItem) :
    decodeItemJson (stkItemToJson it) = some it := by
  rcases it with ⟨nm, v⟩
  have hNN : keyMatch "Name" "Name" = true := by decide
  have hVN : keyMatch "Value" "Name" = false := by decide
  have hVV : keyMatch "Value" "Value" = true := by decide
  rcases v with _ | b | s | lit | l | fs <;>
    simp [stkItemToJson, decodeItemJson, stkItemApplyFields, stkItemApplyField,
      decodeStringField, emptyItem, hNN, hVN, hVV]

theorem decodeItemList_roundtrip (its : List STKCallbackItem) :
    decodeItemList (stkItemsToJson its) = some its := by
  induction its with
  | nil => simp [stkItemsToJson, decodeItemList]
  | cons it its ih => simp [stkItemsToJson, decodeItemList, decodeItem_roundtrip, ih]

theorem decodeSTKPushCallback_rt (cb : STKPushCallback) :
    decodeSTKPushCallbackJson (stkPushCallbackToJson cb) = some cb := by
  rcases cb with ⟨⟨⟨mr, co, rc, rd, ⟨o⟩⟩⟩⟩
  have k1 : keyMatch "Body" "Body" = true := by decide
  have k2 : keyMatch "stkCallback" "stkCallback" = true := by decide
  have h1 : keyMatch "MerchantRequestID" "MerchantRequestID" = true := by decide
  have h2 : keyMatch "CheckoutRequestID" "MerchantRequestID" = false := by decide
  have h3 : keyMatch "CheckoutRequestID" "CheckoutRequestID" = true := by decide
  have h4 : keyMatch "ResultCode" "MerchantRequestID" = false := by decide
  have h5 : keyMatch "ResultCode" "CheckoutRequestID" = false := by decide
  have h6 : keyMatch "ResultCode" "ResultCode" = true := by decide
  have h7 : keyMatch "ResultDesc" "MerchantRequestID" = false := by decide
  have h8 : keyMatch "ResultDesc" "CheckoutRequestID" = false := by decide
  have h9 : keyMatch "ResultDesc" "ResultCode" = false := by decide
  have h10 : keyMatch "ResultDesc" "ResultDesc" = true := by decide
  have h11 : keyMatch "CallbackMetadata" "MerchantRequestID" = false := by decide
  have h12 : keyMatch "CallbackMetadata" "CheckoutRequestID" = false := by decide
  have h13 : keyMatch "CallbackMetadata" "ResultCode" = false := by decide
  have h14 : keyMatch "CallbackMetadata" "ResultDesc" = false := by decide
  have h15 : keyMatch "CallbackMetadata" "CallbackMetadata" = true := by decide
  have h16 : keyMatch "Item" "Item" = true := by decide
  rcases o with _ | its <;>
    simp [stkPushCallbackToJson, stkCallbackToJson, stkMetadataToJson,
      decodeSTKPushCallbackJson, emptyCallback, emptyStkCallback,
      stkPushCallbackApplyFields, stkPushCallbackApplyField,
      stkBodyApplyFields, stkBodyApplyField,
      stkCallbackApplyFields, stkCallbackApplyField,
      stkMetadataApplyFields, stkMetadataApplyField,
      decodeStringField, decodeIntField, decodeItems,
      decodeItemList_roundtrip, decodeIntLit_intChars,
      k1, k2, h1, h2, h3, h4, h5, h6, h7, h8, h9, h10, h11, h12, h13, h14, h15, h16]

theorem stkItemToJson_wf (it : STKCallbackItem) (h : stkItemWf it = true) :
    Json.wf (stkItemToJson it) = true := by
  rcases it with ⟨nm, v⟩
  simp only [stkItemWf] at h
  rcases v with _ | b | s | lit | l | fs <;>
    simp_all [stkItemToJson, Json.wf, JsonFields.wf]

theorem stkItemsToJson_wf (its : List STKCallbackItem) (h : its.all stkItemWf = true) :
    JsonList.wf (stkItemsToJson its) = true := by
  induction its with
  | nil => simp [stkItemsToJson, JsonList.wf]
  | cons it its ih =>
    simp only [List.all_cons, Bool.and_eq_true] at h
    simp [stkItemsToJson, JsonList.wf, stkItemToJson_wf it h.1, ih h.2]

theorem stkPushCallbackToJson_wf (cb : STKPushCallback) (h : callbackWf cb = true) :
    Json.wf (stkPushCallbackToJson cb) = true := by
  rcases cb with ⟨⟨⟨mr, co, rc, rd, ⟨o⟩⟩⟩⟩
  rcases o with _ | its
  · simp [stkPushCallbackToJson, stkCallbackToJson, stkMetadataToJson, Json.wf,
      JsonFields.wf, isValidNumLit_intChars]
  · simp only [callbackWf] at h
    simp [stkPushCallbackToJson, stkCallbackToJson, stkMetadataToJson, Json.wf,
      JsonFields.wf, JsonList.wf, isValidNumLit_intChars, stkItemsToJson_wf _ h]

theorem UnmarshalSTKPushCallback_ofCallback (cb : STKPushCallback)
    (h : callbackWf cb = true) :
    UnmarshalSTKPushCallback (.ofCallback cb) = some cb := by
  simp only [UnmarshalSTKPushCallback, toBytes, marshalSTKPushCallback]
  rw [jsonUnmarshal_printJson _ (stkPushCallbackToJson_wf cb h)]
  simp [decodeSTKPushCallback_rt]

theorem cacheLookup_insert_self (c : Cache) (k : String) (v : AuthorizationResponse) :
    cacheLookup (cacheInsert c k v) k = some v := by
  induction c with
  | nil => simp [cacheInsert, cacheLookup]
  | cons p c ih =>
    rcases p with ⟨k', w⟩
    by_cases h : k' = k
    · simp [cacheInsert, cacheLookup, h]
    · simp [cacheInsert, cacheLookup, h, ih]

theorem fetchAccessToken_success (ck : String) (now : Nat) (st body : String)
    (resp : AuthorizationResponse) (c : Cache)
    (h : decodeAuthorizationResponse body = some resp) :
    fetchAccessToken ck now (.response 200 st body) c =
      ⟨.ok resp.AccessToken, cacheInsert c ck { resp with setAt := now }, 1, 1⟩ := by
  simp only [fetchAccessToken]
  rw [if_neg (by simp), h]
  simp [cacheLookup_insert_self]

theorem genAccessToken_hit (ck : String) (now : Nat) (net : AuthNetOutcome) (c : Cache)
    (r : AuthorizationResponse) (h1 : cacheLookup c ck = some r)
    (h2 : now < r.setAt + accessTokenTTL) :
    GenerateAccessToken ck now net c = ⟨.ok r.AccessToken, c, 0, 0⟩ := by
  simp [GenerateAccessToken, h1, h2]

theorem genAccessToken_refresh (ck : String) (now : Nat) (st body : String)
    (resp : AuthorizationResponse) (c : Cache)
    (hstale : ∀ r, cacheLookup c ck = some r → r.setAt + accessTokenTTL ≤ now)
    (hdec : decodeAuthorizationResponse body = some resp) :
    GenerateAccessToken ck now (.response 200 st body) c =
      ⟨.ok resp.AccessToken, cacheInsert c ck { resp with setAt := now }, 1, 1⟩ := by
  rcases hc : cacheLookup c ck with _ | r
  · simp only [GenerateAccessToken, hc]
    exact fetchAccessToken_success ck now st body resp c hdec
  · have hstale' := hstale r hc
    simp only [GenerateAccessToken, hc]
    rw [if_neg (by omega)]
    exact fetchAccessToken_success ck now st body resp c hdec

theorem genAccessToken_error_frame (ck : String) (now : Nat) (net : AuthNetOutcome)
    (c : Cache) (e : MpesaError)
    (h : (GenerateAccessToken ck now net c).result = .error e) :
    (GenerateAccessToken ck now net c).cache = c ∧
      (GenerateAccessToken ck now net c).writes = 0 := by
  rcases hc : cacheLookup c ck with _ | r
  · cases net with
    | newRequestError msg => simp [GenerateAccessToken, hc, fetchAccessToken]
    | doError msg => simp [GenerateAccessToken, hc, fetchAccessToken]
    | response sc st body =>
      simp only [GenerateAccessToken, hc, fetchAccessToken] at h ⊢
      by_cases hsc : sc ≠ 200
      · simp [hsc]
      · rw [if_neg hsc] at h ⊢
        rcases hd : decodeAuthorizationResponse body with _ | resp
        · simp only [hd] at h ⊢
          simp
        · simp only [hd] at h
          simp at h
  · by_cases hfresh : now < r.setAt + accessTokenTTL
    · simp only [GenerateAccessToken, hc, if_pos hfresh] at h
      simp at h
    · cases net with
      | newRequestError msg =>
        simp [GenerateAccessToken, hc, if_neg hfresh, fetchAccessToken]
      | doError msg =>
        simp [GenerateAccessToken, hc, if_neg hfresh, fetchAccessToken]
      | response sc st body =>
        simp only [GenerateAccessToken, hc, if_neg hfresh, fetchAccessToken] at h ⊢
        by_cases hsc : sc ≠ 200
        · simp [hsc]
        · rw [if_neg hsc] at h ⊢
          rcases hd : decodeAuthorizationResponse body with _ | resp
          · simp only [hd] at h ⊢
            simp
          · simp only [hd] at h
            simp at h

theorem runAuthCalls_hot (ck : String) (now : Nat) (net : AuthNetOutcome) (n : Nat)
    (c : Cache) (r : AuthorizationResponse) (h1 : cacheLookup c ck = some r)
    (h2 : now < r.setAt + accessTokenTTL) :
    runAuthCalls ck now net n c = ⟨List.replicate n (.ok r.AccessToken), c, 0⟩ := by
  induction n with
  | zero => simp [runAuthCalls]
  | succ n ih =>
    rw [runAuthCalls, genAccessToken_hit ck now net c r h1 h2]
    simp [ih, List.replicate_succ]

theorem powMod_eq (b e m : Nat) : powMod b e m = b ^ e % m := by
  induction e using Nat.strong_induction_on with
  | _ e ih =>
    rw [powMod]
    by_cases he : e = 0
    · simp [he]
    · have ih2 := ih (e / 2) (Nat.div_lt_self (by omega) (by omega))
      simp only [if_neg he, ih2]
      by_cases hp : e % 2 = 0
      · rw [if_pos hp]
        have h1 : b ^ (e / 2) % m * (b ^ (e / 2) % m) % m = b ^ (e / 2 + e / 2) % m := by
          rw [← Nat.mul_mod, ← pow_add]
        rw [h1, show e / 2 + e / 2 = e by omega]
      · rw [if_neg hp]
        have h1 : b ^ (e / 2) % m * (b ^ (e / 2) % m) % m = b ^ (e / 2 + e / 2) % m := by
          rw [← Nat.mul_mod, ← pow_add]
        have h2 : b ^ (e / 2 + e / 2) % m * (b % m) % m = b ^ (e / 2 + e / 2) * b % m := by
          rw [← Nat.mul_mod]
        rw [h1, h2, ← pow_succ, show e / 2 + e / 2 + 1 = e by omega]

theorem m89_prime : Nat.Prime (2 ^ 89 - 1) := by
  have h : (mersenne 89).Prime := lucas_lehmer_sufficiency _ (by norm_num) (by norm_num)
  simpa [mersenne] using h

theorem m107_prime : Nat.Prime (2 ^ 107 - 1) := by
  have h : (mersenne 107).Prime := lucas_lehmer_sufficiency _ (by norm_num) (by norm_num)
  simpa [mersenne] using h

theorem rsa_pow_inj (p e d : Nat) (hp : Nat.Prime p) (hed : e * d % (p - 1) = 1)
    (x y : Nat) (hx : x < p) (hy : y < p) (h : x ^ e % p = y ^ e % p) : x = y := by
  haveI : Fact (Nat.Prime p) := ⟨hp⟩
  have hp2 : 2 ≤ p := hp.two_le
  have hed0 : e * d ≠ 0 := by
    intro h0
    rw [h0] at hed
    simp at hed
  have hsplit : e * d = (p - 1) * (e * d / (p - 1)) + 1 := by
    have := Nat.div_add_mod (e * d) (p - 1)
    omega
  have key : ∀ z : ZMod p, z ^ (e * d) = z := by
    intro z
    by_cases hz : z = 0
    · subst hz
      rw [zero_pow hed0]
    · rw [hsplit, pow_succ, pow_mul, ZMod.pow_card_sub_one_eq_one hz, one_pow, one_mul]
  have hcast : ((x : ZMod p)) ^ e = ((y : ZMod p)) ^ e := by
    have hc : ((x ^ e % p : Nat) : ZMod p) = ((y ^ e % p : Nat) : ZMod p) := by rw [h]
    rw [ZMod.natCast_mod, ZMod.natCast_mod] at hc
    push_cast at hc
    exact hc
  have hzeq : (x : ZMod p) = (y : ZMod p) := by
    calc (x : ZMod p) = ((x : ZMod p)) ^ (e * d) := (key _).symm
      _ = (((x : ZMod p)) ^ e) ^ d := by rw [← pow_mul]
      _ = (((y : ZMod p)) ^ e) ^ d := by rw [hcast]
      _ = ((y : ZMod p)) ^ (e * d) := by rw [← pow_mul]
      _ = (y : ZMod p) := key _
  have hxv : ((x : ZMod p)).val = x := ZMod.val_cast_of_lt hx
  have hyv : ((y : ZMod p)).val = y := ZMod.val_cast_of_lt hy
  rw [hzeq] at hxv
  omega

theorem natToBytes_bytes_lt (k : Nat) : ∀ (n : Nat), ∀ b ∈ natToBytes k n, b < 256 := by
  induction k with
  | zero => simp [natToBytes]
  | succ k ih =>
    intro n b hb
    rw [natToBytes] at hb
    simp at hb
    rcases hb with hb | hb
    · exact ih (n / 256) b hb
    · omega

theorem natToBytes_ne_nil (k n : Nat) (hk : k ≠ 0) : natToBytes k n ≠ [] := by
  cases k with
  | zero => exact absurd rfl hk
  | succ k => simp [natToBytes]

theorem base64Encode_ne_nil (bs : List Nat) (h : bs ≠ []) : base64Encode bs ≠ [] := by
  match bs with
  | [] => exact absurd rfl h
  | [b] => simp [base64Encode]
  | [b1, b2] => simp [base64Encode]
  | b1 :: b2 :: b3 :: rest => simp [base64Encode]

theorem bytesToNat_cons_zero (rest : List Nat) :
    bytesToNat (0 :: rest) = bytesToNat rest := by
  simp [bytesToNat, List.foldl]

theorem encryptPKCS1v15_inj (key : RSAPublicKey) (d : Nat) (hp : Nat.Prime key.n)
    (hed : key.e * d % (key.n - 1) = 1) (hsz : 256 ^ (key.size - 1) ≤ key.n)
    (hnsz : key.n < 256 ^ key.size) (msg pad1 pad2 : List Nat)
    (hm : ∀ b ∈ msg, b < 256) (hb1 : ∀ b ∈ pad1, b < 256) (hb2 : ∀ b ∈ pad2, b < 256)
    (hl1 : pad1.length + msg.length + 3 = key.size)
    (hl2 : pad2.length + msg.length + 3 = key.size)
    (hne : pad1 ≠ pad2) (c1 c2 : List Nat)
    (h1 : encryptPKCS1v15 key pad1 msg = some c1)
    (h2 : encryptPKCS1v15 key pad2 msg = some c2) : c1 ≠ c2 := by
  intro hceq
  have hnpos : 0 < key.n := hp.pos
  unfold encryptPKCS1v15 at h1 h2
  by_cases hfit : key.size < msg.length + 11
  · rw [if_pos hfit] at h1
    exact absurd h1 (by simp)
  · rw [if_neg hfit] at h1 h2
    simp only [Option.some.injEq] at h1 h2
    have hrest1 : ∀ b ∈ (2 :: (pad1 ++ 0 :: msg) : List Nat), b < 256 := by
      intro b hb
      simp at hb
      rcases hb with hb | hb | hb | hb
      · omega
      · exact hb1 b hb
      · omega
      · exact hm b hb
    have hrest2 : ∀ b ∈ (2 :: (pad2 ++ 0 :: msg) : List Nat), b < 256 := by
      intro b hb
      simp at hb
      rcases hb with hb | hb | hb | hb
      · omega
      · exact hb2 b hb
      · omega
      · exact hm b hb
    have hv1 : bytesToNat (0 :: 2 :: (pad1 ++ 0 :: msg)) < key.n := by
      rw [bytesToNat_cons_zero]
      have := bytesToNat_lt _ hrest1
      have hlen : (2 :: (pad1 ++ 0 :: msg) : List Nat).length = key.size - 1 := by
        simp [List.length_append]
        omega
      rw [hlen] at this
      omega
    have hv2 : bytesToNat (0 :: 2 :: (pad2 ++ 0 :: msg)) < key.n := by
      rw [bytesToNat_cons_zero]
      have := bytesToNat_lt _ hrest2
      have hlen : (2 :: (pad2 ++ 0 :: msg) : List Nat).length = key.size - 1 := by
        simp [List.length_append]
        omega
      rw [hlen] at this
      omega
    have hc1lt : powMod (bytesToNat (0 :: 2 :: (pad1 ++ 0 :: msg))) key.e key.n
        < 256 ^ key.size := by
      rw [powMod_eq]
      have := Nat.mod_lt ((bytesToNat (0 :: 2 :: (pad1 ++ 0 :: msg))) ^ key.e) hnpos
      omega
    have hc2lt : powMod (bytesToNat (0 :: 2 :: (pad2 ++ 0 :: msg))) key.e key.n
        < 256 ^ key.size := by
      rw [powMod_eq]
      have := Nat.mod_lt ((bytesToNat (0 :: 2 :: (pad2 ++ 0 :: msg))) ^ key.e) hnpos
      omega
    rw [← h1, ← h2] at hceq
    have hveq := natToBytes_inj key.size _ _ hc1lt hc2lt hceq
    rw [powMod_eq, powMod_eq] at hveq
    have hbeq := rsa_pow_inj key.n key.e d hp hed _ _ hv1 hv2 hveq
    have hemeq := bytesToNat_inj _ _ (by simp [List.length_append]; omega)
      (by
        intro b hb
        simp at hb
        rcases hb with hb | hb | hb | hb | hb
        · omega
        · omega
        · exact hb1 b hb
        · omega
        · exact hm b hb)
      (by
        intro b hb
        simp at hb
        rcases hb with hb | hb | hb | hb | hb
        · omega
        · omega
        · exact hb2 b hb
        · omega
        · exact hm b hb)
      hbeq
    simp only [List.cons.injEq, true_and] at hemeq
    exact hne (List.append_cancel_right hemeq)

/-- Claim C1: when the cache holds a record for the consumer key with
now < setAt + 55 minutes, `GenerateAccessToken` returns that record's
token with no network request and no write; otherwise it performs exactly
one GET and, on success, stores a record with setAt = now and returns the
freshly decoded token. -/
theorem claim_C1 (ck : String) (now : Nat) (net : AuthNetOutcome) (st body : String)
    (resp : AuthorizationResponse) (c : Cache) :
    (∀ r, cacheLookup c ck = some r → now < r.setAt + accessTokenTTL →
      GenerateAccessToken ck now net c = ⟨.ok r.AccessToken, c, 0, 0⟩) ∧
    ((∀ r, cacheLookup c ck = some r → r.setAt + accessTokenTTL ≤ now) →
      decodeAuthorizationResponse body = some resp →
      GenerateAccessToken ck now (.response 200 st body) c =
        ⟨.ok resp.AccessToken, cacheInsert c ck { resp with setAt := now }, 1, 1⟩) := by
  constructor
  · intro r h1 h2
    exact genAccessToken_hit ck now net c r h1 h2
  · intro hstale hdec
    exact genAccessToken_refresh ck now st body resp c hstale hdec

/-- Witness for C1: a fresh hit returns the cached token without a request,
and a stale cache is refreshed from the endpoint's body. -/
theorem claim_C1_witness :
    GenerateAccessToken "ck" 100 (.doError "x") [("ck", ⟨"tok", "3599", 50⟩)] =
      ⟨.ok "tok", [("ck", ⟨"tok", "3599", 50⟩)], 0, 0⟩ ∧
    GenerateAccessToken "ck" 5000 (.response 200 "200 OK" "\x7b\"access_token\":\"t2\"\x7d")
        [("ck", ⟨"tok", "3599", 50⟩)] = ⟨.ok "t2", [("ck", ⟨"t2", "", 5000⟩)], 1, 1⟩ := by
  constructor
  · exact (claim_C1 "ck" 100 (.doError "x") "" "" ⟨"", "", 0⟩
      [("ck", ⟨"tok", "3599", 50⟩)]).1 ⟨"tok", "3599", 50⟩ rfl (by decide)
  · exact (claim_C1 "ck" 5000 (.doError "") "200 OK" "\x7b\"access_token\":\"t2\"\x7d"
      ⟨"t2", "", 0⟩ [("ck", ⟨"tok", "3599", 50⟩)]).2
      (by intro r hr; simp [cacheLookup] at hr; subst hr; decide) rfl

/-- Claim C3: an empty passkey fails STKPush and STKQuery with the
invalid-passkey error and an empty initiator password fails B2C and
GetTxnStatus with the invalid-initiator-password error, in every case with
zero HTTP requests and an untouched cache. -/
theorem claim_C3 (ck : String) (env : Environment) (now : Clock)
    (auth : AuthNetOutcome) (op : OpNetOutcome) (pad : List Nat)
    (preq : STKPushRequest) (qreq : STKQueryRequest) (breq : B2CRequest)
    (treq : TransactionStatusRequest) (c : Cache) :
    STKPush ck now auth op "" preq c = ⟨.error .invalidPasskey, c, 0⟩ ∧
    STKQuery ck now auth op "" qreq c = ⟨.error .invalidPasskey, c, 0⟩ ∧
    B2C ck env now auth op pad "" breq c = ⟨.error .invalidInitiatorPassword, c, 0⟩ ∧
    GetTxnStatus ck env now auth op pad "" treq c =
      ⟨.error .invalidInitiatorPassword, c, 0⟩ := by
  refine ⟨?_, ?_, ?_, ?_⟩ <;> simp [STKPush, STKQuery, B2C, GetTxnStatus]

/-- Claim C4: the payload sent by a charge or charge-status call carries
Timestamp = the wall clock at call time formatted YYYYMMDDHHmmss and
Password = base64(decimal shortcode ++ passkey ++ that timestamp), and the
caller-supplied Password and Timestamp fields are ignored. -/
theorem claim_C4 (passkey : String) (now : DateTime) (req : STKPushRequest)
    (qreq : STKQueryRequest) (p t : String) :
    (stkPushPayload now passkey req).Timestamp = formatTimestamp now ∧
    (stkPushPayload now passkey req).Password =
      base64EncodeString (utf8Bytes
        (natString req.BusinessShortCode ++ passkey ++ formatTimestamp now)) ∧
    (stkQueryPayload now passkey qreq).Timestamp = formatTimestamp now ∧
    (stkQueryPayload now passkey qreq).Password =
      base64EncodeString (utf8Bytes
        (natString qreq.BusinessShortCode ++ passkey ++ formatTimestamp now)) ∧
    stkPushPayload now passkey { req with Password := p, Timestamp := t } =
      stkPushPayload now passkey req ∧
    stkQueryPayload now passkey { qreq with Password := p, Timestamp := t } =
      stkQueryPayload now passkey qreq :=
  ⟨rfl, rfl, rfl, rfl, rfl, rfl⟩

/-- Claim C5: every failing `GenerateAccessToken` path (request
construction, transport, non-200 status with its status text, decode)
returns the matching error and leaves the cache unchanged with zero
writes; a write happens exactly on the successful refresh and never on a
hit. -/
theorem claim_C5 (ck : String) (now : Nat) (c : Cache) (msg st body : String) (sc : Nat)
    (hstale : ∀ r, cacheLookup c ck = some r → r.setAt + accessTokenTTL ≤ now) :
    GenerateAccessToken ck now (.newRequestError msg) c =
      ⟨.error (.authRequestCreationError msg), c, 0, 0⟩ ∧
    GenerateAccessToken ck now (.doError msg) c =
      ⟨.error (.authTransportError msg), c, 1, 0⟩ ∧
    (sc ≠ 200 → GenerateAccessToken ck now (.response sc st body) c =
      ⟨.error (.authStatusError st), c, 1, 0⟩) ∧
    (decodeAuthorizationResponse body = none →
      GenerateAccessToken ck now (.response 200 st body) c =
        ⟨.error .authDecodeError, c, 1, 0⟩) ∧
    (∀ (net : AuthNetOutcome) (c' : Cache) (e : MpesaError),
      (GenerateAccessToken ck now net c').result = .error e →
      (GenerateAccessToken ck now net c').cache = c' ∧
        (GenerateAccessToken ck now net c').writes = 0) ∧
    (∀ (net : AuthNetOutcome) (c' : Cache) (r : AuthorizationResponse),
      cacheLookup c' ck = some r → now < r.setAt + accessTokenTTL →
      (GenerateAccessToken ck now net c').writes = 0) ∧
    (∀ (st' body' : String) (resp : AuthorizationResponse),
      decodeAuthorizationResponse body' = some resp →
      (GenerateAccessToken ck now (.response 200 st' body') c).writes = 1) := by
  have hfe : ∀ net, GenerateAccessToken ck now net c = fetchAccessToken ck now net c := by
    intro net
    rcases hc : cacheLookup c ck with _ | r
    · simp only [GenerateAccessToken, hc]
    · have := hstale r hc
      simp only [GenerateAccessToken, hc]
      rw [if_neg (by omega)]
  refine ⟨?_, ?_, ?_, ?_, ?_, ?_, ?_⟩
  · rw [hfe]
    rfl
  · rw [hfe]
    rfl
  · intro hsc
    rw [hfe]
    simp only [fetchAccessToken]
    rw [if_pos hsc]
  · intro hdec
    rw [hfe]
    simp only [fetchAccessToken]
    rw [if_neg (by simp), hdec]
  · intro net c' e h
    exact genAccessToken_error_frame ck now net c' e h
  · intro net c' r h1 h2
    rw [genAccessToken_hit ck now net c' r h1 h2]
  · intro st' body' resp hdec
    rw [genAccessToken_refresh ck now st' body' resp c hstale hdec]

/-- Witness for C5: a transport failure and a 500 status on a cold cache
produce the matching errors and do not write to the cache. -/
theorem claim_C5_witness :
    GenerateAccessToken "ck" 0 (.doError "boom") [] =
      ⟨.error (.authTransportError "boom"), [], 1, 0⟩ ∧
    GenerateAccessToken "ck" 0 (.response 500 "500 Internal Server Error" "x") [] =
      ⟨.error (.authStatusError "500 Internal Server Error"), [], 1, 0⟩ := by
  have h := claim_C5 "ck" 0 [] "boom" "500 Internal Server Error" "x" 500
    (by intro r hr; simp [cacheLookup] at hr)
  exact ⟨h.2.1, h.2.2.1 (by decide)⟩

/-- Claim C2 (amended): STKPush, STKQuery and B2C classify the decoded
envelope by errorCode alone — the call succeeds iff errorCode is empty,
and a non-empty errorCode yields the business error carrying the request
id, error code and error message — while only the transaction-status
operation also fails when the response code differs from the success
sentinel "0", checking the response code before errorCode. -/
theorem claim_C2 (id : String) (resp : GeneralRequestResponse) :
    (classifyByErrorCode id resp = .ok resp ↔ resp.ErrorCode = "") ∧
    (resp.ErrorCode ≠ "" →
      classifyByErrorCode id resp =
        .error (.businessError id resp.RequestID resp.ErrorCode resp.ErrorMessage)) ∧
    (classifyTxnStatus resp = .ok resp ↔
      resp.ResponseCode = SuccessResultCode ∧ resp.ErrorCode = "") ∧
    (resp.ResponseCode ≠ SuccessResultCode →
      classifyTxnStatus resp =
        .error (.responseCodeError "txn status" resp.ResponseCode
          resp.ResponseDescription)) := by
  refine ⟨?_, ?_, ?_, ?_⟩
  · by_cases hec : resp.ErrorCode = "" <;> simp [classifyByErrorCode, hec]
  · intro hec
    simp [classifyByErrorCode, hec]
  · by_cases hrc : resp.ResponseCode = SuccessResultCode <;>
      by_cases hec : resp.ErrorCode = "" <;> simp [classifyTxnStatus, hrc, hec]
  · intro hrc
    simp [classifyTxnStatus, hrc]

/-- Witness for C2: an envelope with a non-empty errorCode is turned into
the business error, and a transaction-status envelope with response code
"1" is turned into the response-code error. -/
theorem claim_C2_witness :
    classifyByErrorCode "stk push"
        ⟨"", "", "", "404.001.03", "Invalid Access Token", "", "", "", "", "", "",
          "req-1"⟩ =
      .error (.businessError "stk push" "req-1" "404.001.03" "Invalid Access Token") ∧
    classifyTxnStatus ⟨"", "", "", "", "", "", "", "1", "bad", "", "", ""⟩ =
      .error (.responseCodeError "txn status" "1" "bad") := by
  constructor
  · exact (claim_C2 "stk push"
      ⟨"", "", "", "404.001.03", "Invalid Access Token", "", "", "", "", "", "",
        "req-1"⟩).2.1 (by decide)
  · exact (claim_C2 "txn status"
      ⟨"", "", "", "", "", "", "", "1", "bad", "", "", ""⟩).2.2.2 (by decide)

/-- Counterexample for C2 as stated by the spec: a complete STKPush call
whose operation response carries ResponseCode "1" — present and different
from the success sentinel — and an empty errorCode still returns success,
so a dispatch operation does not fail on a non-success response code. -/
theorem claim_C2_counterexample :
    ∃ resp : GeneralRequestResponse,
      (STKPush "ck" ⟨0, ⟨2024, 1, 1, 0, 0, 0⟩⟩
          (.response 200 "200 OK" "\x7b\"access_token\":\"tok\"\x7d")
          (.response 200 "200 OK" "\x7b\"ResponseCode\":\"1\"\x7d") "passkey"
          ⟨174379, "", "", "CustomerPayBillOnline", 10, 174379, 174379,
            254708374149, "https://example.com/cb", "ref", "desc"⟩ []).result
        = .ok resp ∧
      resp.ErrorCode = "" ∧ resp.ResponseCode = "1" ∧
      resp.ResponseCode ≠ SuccessResultCode :=
  ⟨{ emptyResponse with ResponseCode := "1" }, rfl, rfl, rfl, by decide⟩

/-- Claim C9: under the client's mutex the calls serialize, so N+1 calls
to `GenerateAccessToken` on a cold cache perform exactly one HTTP request
in total and every call returns the same freshly fetched token. -/
theorem claim_C9 (ck : String) (now : Nat) (st body : String)
    (resp : AuthorizationResponse) (c : Cache) (n : Nat)
    (hcold : cacheLookup c ck = none)
    (hdec : decodeAuthorizationResponse body = some resp) :
    runAuthCalls ck now (.response 200 st body) (n + 1) c =
      ⟨List.replicate (n + 1) (.ok resp.AccessToken),
        cacheInsert c ck { resp with setAt := now }, 1⟩ := by
  have h1 : GenerateAccessToken ck now (.response 200 st body) c =
      ⟨.ok resp.AccessToken, cacheInsert c ck { resp with setAt := now }, 1, 1⟩ :=
    genAccessToken_refresh ck now st body resp c
      (by intro r hr; rw [hcold] at hr; cases hr) hdec
  have h2 := runAuthCalls_hot ck now (.response 200 st body) n
    (cacheInsert c ck { resp with setAt := now }) { resp with setAt := now }
    (cacheLookup_insert_self c ck _) (by simp [accessTokenTTL])
  rw [runAuthCalls]
  simp [h1, h2, List.replicate_succ]

/-- Witness for C9: three serialized calls on a cold cache yield one
request and three equal tokens. -/
theorem claim_C9_witness :
    runAuthCalls "ck" 0 (.response 200 "200 OK" "\x7b\"access_token\":\"tok\"\x7d") 3 [] =
      ⟨[.ok "tok", .ok "tok", .ok "tok"], [("ck", ⟨"tok", "", 0⟩)], 1⟩ :=
  claim_C9 "ck" 0 "200 OK" "\x7b\"access_token\":\"tok\"\x7d" ⟨"tok", "", 0⟩ [] 2 rfl rfl

/-- Claim C10: a 200 response whose valid-JSON body decodes to an empty
access token makes `GenerateAccessToken` return the empty string as a
success and cache it under the consumer key, and every later call within
55 minutes returns the empty string again with no network request. -/
theorem claim_C10 (ck : String) (now : Nat) (st body : String)
    (resp : AuthorizationResponse) (c : Cache)
    (hstale : ∀ r, cacheLookup c ck = some r → r.setAt + accessTokenTTL ≤ now)
    (hdec : decodeAuthorizationResponse body = some resp)
    (hempty : resp.AccessToken = "") :
    GenerateAccessToken ck now (.response 200 st body) c =
      ⟨.ok "", cacheInsert c ck { resp with setAt := now }, 1, 1⟩ ∧
    ∀ (later : Nat) (net' : AuthNetOutcome), later < now + accessTokenTTL →
      GenerateAccessToken ck later net' (cacheInsert c ck { resp with setAt := now }) =
        ⟨.ok "", cacheInsert c ck { resp with setAt := now }, 0, 0⟩ := by
  constructor
  · rw [genAccessToken_refresh ck now st body resp c hstale hdec, hempty]
  · intro later net' hl
    have h := genAccessToken_hit ck later net'
      (cacheInsert c ck { resp with setAt := now }) { resp with setAt := now }
      (cacheLookup_insert_self c ck _) (by simp; omega)
    simpa [hempty] using h

/-- Witness for C10: the body "()" braces with no access_token field yields
the empty token, caches it, and a later call within the TTL returns the
empty string without a request. -/
theorem claim_C10_witness :
    GenerateAccessToken "ck" 10 (.response 200 "200 OK" "\x7b\x7d") [] =
      ⟨.ok "", [("ck", ⟨"", "", 10⟩)], 1, 1⟩ ∧
    GenerateAccessToken "ck" 100 (.doError "x") [("ck", ⟨"", "", 10⟩)] =
      ⟨.ok "", [("ck", ⟨"", "", 10⟩)], 0, 0⟩ := by
  have h := claim_C10 "ck" 10 "200 OK" "\x7b\x7d" ⟨"", "", 0⟩ []
    (by intro r hr; simp [cacheLookup] at hr) rfl rfl
  exact ⟨h.1, h.2 100 (.doError "x") (by decide)⟩

/-- Claim C7: a logical callback payload supplied as a raw JSON string, as
a drained request body, or as a pre-built typed value re-serialized to
JSON decodes through the one shared path to the same callback structure —
in particular the same CheckoutRequestID — and an input whose bytes are
not one valid JSON value is a hard decode error in either byte-carrying
shape. -/
theorem claim_C7 (cb : STKPushCallback) (hwf : callbackWf cb = true) (s : String)
    (hbad : jsonUnmarshal s = none) :
    UnmarshalSTKPushCallback (.ofString (marshalSTKPushCallback cb)) = some cb ∧
    UnmarshalSTKPushCallback (.ofRequest (marshalSTKPushCallback cb)) = some cb ∧
    UnmarshalSTKPushCallback (.ofCallback cb) = some cb ∧
    (UnmarshalSTKPushCallback (.ofString (marshalSTKPushCallback cb))).map
        (fun out => out.Body.STKCallback.CheckoutRequestID) =
      some cb.Body.STKCallback.CheckoutRequestID ∧
    UnmarshalSTKPushCallback (.ofString s) = none ∧
    UnmarshalSTKPushCallback (.ofRequest s) = none := by
  have hok : (jsonUnmarshal (marshalSTKPushCallback cb)).bind
      decodeSTKPushCallbackJson = some cb := by
    rw [marshalSTKPushCallback,
      jsonUnmarshal_printJson _ (stkPushCallbackToJson_wf cb hwf)]
    simp [decodeSTKPushCallback_rt]
  refine ⟨?_, ?_, ?_, ?_, ?_, ?_⟩
  · simpa [UnmarshalSTKPushCallback, toBytes] using hok
  · simpa [UnmarshalSTKPushCallback, toBytes] using hok
  · simpa [UnmarshalSTKPushCallback, toBytes] using hok
  · have h1 : UnmarshalSTKPushCallback (.ofString (marshalSTKPushCallback cb)) =
        some cb := by simpa [UnmarshalSTKPushCallback, toBytes] using hok
    rw [h1]
    rfl
  · simp [UnmarshalSTKPushCallback, toBytes, hbad]
  · simp [UnmarshalSTKPushCallback, toBytes, hbad]

/-- Witness for C7: a concrete checkout callback round-trips through all
three input shapes to the decoded structure with its CheckoutRequestID,
and a lone open brace is rejected in both byte shapes. -/
theorem claim_C7_witness :
    UnmarshalSTKPushCallback (.ofString (marshalSTKPushCallback
        ⟨⟨⟨"29115-34620561-1", "ws_CO_191220191020363925", 0,
          "The service request is processed successfully.", ⟨none⟩⟩⟩⟩)) =
      some ⟨⟨⟨"29115-34620561-1", "ws_CO_191220191020363925", 0,
        "The service request is processed successfully.", ⟨none⟩⟩⟩⟩ ∧
    UnmarshalSTKPushCallback (.ofCallback
        ⟨⟨⟨"29115-34620561-1", "ws_CO_191220191020363925", 0,
          "The service request is processed successfully.", ⟨none⟩⟩⟩⟩) =
      some ⟨⟨⟨"29115-34620561-1", "ws_CO_191220191020363925", 0,
        "The service request is processed successfully.", ⟨none⟩⟩⟩⟩ ∧
    UnmarshalSTKPushCallback (.ofString "\x7b") = none := by
  have h := claim_C7
    ⟨⟨⟨"29115-34620561-1", "ws_CO_191220191020363925", 0,
      "The service request is processed successfully.", ⟨none⟩⟩⟩⟩ rfl "\x7b" rfl
  exact ⟨h.1, h.2.2.1, h.2.2.2.2.1⟩

theorem base64EncodeString_inj (xs ys : List Nat) (hx : ∀ b ∈ xs, b < 256)
    (hy : ∀ b ∈ ys, b < 256) (h : base64EncodeString xs = base64EncodeString ys) :
    xs = ys := by
  apply base64Encode_inj xs ys hx hy
  simpa [base64EncodeString] using congrArg String.data h

theorem encryptPKCS1v15_eq (key : RSAPublicKey) (pad msg : List Nat)
    (hfit : ¬ key.size < msg.length + 11) :
    encryptPKCS1v15 key pad msg =
      some (natToBytes key.size
        (powMod (bytesToNat (0 :: 2 :: (pad ++ 0 :: msg))) key.e key.n)) := by
  unfold encryptPKCS1v15
  rw [if_neg hfit]

theorem getSecurityCredentials_eq (env : Environment) (pad : List Nat) (pwd : String)
    (hpw : pwd ≠ "")
    (hfit : ¬ (certificateKey env).size < (utf8Bytes pwd).length + 11) :
    getSecurityCredentials env pad pwd =
      .ok (base64EncodeString (natToBytes (certificateKey env).size
        (powMod (bytesToNat (0 :: 2 :: (pad ++ 0 :: utf8Bytes pwd)))
          (certificateKey env).e (certificateKey env).n))) := by
  unfold getSecurityCredentials
  rw [if_neg hpw]
  simp only [encryptPKCS1v15_eq (certificateKey env) pad (utf8Bytes pwd) hfit]

/-- Claim C6: for a non-empty initiator password and either environment,
the credential step yields a non-empty valid-base64 string — the base64
of the PKCS#1 v1.5 encryption of the password under the environment's
certificate key — and two encryptions drawing different padding bytes are
not byte-identical. -/
theorem claim_C6 (env : Environment) (pwd : String) (pad1 pad2 : List Nat)
    (hpw : pwd ≠ "")
    (hb1 : ∀ b ∈ pad1, b < 256) (hb2 : ∀ b ∈ pad2, b < 256)
    (hp81 : 8 ≤ pad1.length) (hp82 : 8 ≤ pad2.length)
    (hl1 : pad1.length + (utf8Bytes pwd).length + 3 = (certificateKey env).size)
    (hl2 : pad2.length + (utf8Bytes pwd).length + 3 = (certificateKey env).size)
    (hne : pad1 ≠ pad2) :
    ∃ s1 s2 : String,
      getSecurityCredentials env pad1 pwd = .ok s1 ∧
      getSecurityCredentials env pad2 pwd = .ok s2 ∧
      s1 ≠ "" ∧ (∃ bytes, base64Decode s1 = some bytes) ∧ s1 ≠ s2 := by
  have hfit : ¬ (certificateKey env).size < (utf8Bytes pwd).length + 11 := by omega
  suffices h : ∀ d : Nat, Nat.Prime (certificateKey env).n →
      (certificateKey env).e * d % ((certificateKey env).n - 1) = 1 →
      256 ^ ((certificateKey env).size - 1) ≤ (certificateKey env).n →
      (certificateKey env).n < 256 ^ (certificateKey env).size →
      ∃ s1 s2 : String,
        getSecurityCredentials env pad1 pwd = .ok s1 ∧
        getSecurityCredentials env pad2 pwd = .ok s2 ∧
        s1 ≠ "" ∧ (∃ bytes, base64Decode s1 = some bytes) ∧ s1 ≠ s2 by
    cases env with
    | Sandbox =>
      exact h 463625422192654777564758143 m89_prime
        (by norm_num [certificateKey, sandboxKey])
        (by norm_num [certificateKey, sandboxKey])
        (by norm_num [certificateKey, sandboxKey])
    | Production =>
      exact h 109838267806753767390999997687145 m107_prime
        (by norm_num [certificateKey, productionKey])
        (by norm_num [certificateKey, productionKey])
        (by norm_num [certificateKey, productionKey])
  intro d hp hed hsz hnsz
  have henc1 := encryptPKCS1v15_eq (certificateKey env) pad1 (utf8Bytes pwd) hfit
  have henc2 := encryptPKCS1v15_eq (certificateKey env) pad2 (utf8Bytes pwd) hfit
  have hcne := encryptPKCS1v15_inj (certificateKey env) d hp hed hsz hnsz
    (utf8Bytes pwd) pad1 pad2 (utf8Bytes_lt pwd) hb1 hb2 hl1 hl2 hne _ _ henc1 henc2
  have hblt1 := natToBytes_bytes_lt (certificateKey env).size
    (powMod (bytesToNat (0 :: 2 :: (pad1 ++ 0 :: utf8Bytes pwd)))
      (certificateKey env).e (certificateKey env).n)
  have hblt2 := natToBytes_bytes_lt (certificateKey env).size
    (powMod (bytesToNat (0 :: 2 :: (pad2 ++ 0 :: utf8Bytes pwd)))
      (certificateKey env).e (certificateKey env).n)
  refine ⟨_, _, getSecurityCredentials_eq env pad1 pwd hpw hfit,
    getSecurityCredentials_eq env pad2 pwd hpw hfit, ?_, ?_, ?_⟩
  · intro hnil
    have h0 : base64Encode (natToBytes (certificateKey env).size
        (powMod (bytesToNat (0 :: 2 :: (pad1 ++ 0 :: utf8Bytes pwd)))
          (certificateKey env).e (certificateKey env).n)) = [] := by
      simpa [base64EncodeString] using congrArg String.data hnil
    exact base64Encode_ne_nil _
      (natToBytes_ne_nil (certificateKey env).size
        (powMod (bytesToNat (0 :: 2 :: (pad1 ++ 0 :: utf8Bytes pwd)))
          (certificateKey env).e (certificateKey env).n) (by omega)) h0
  · exact ⟨_, by
      show base64DecodeChars (base64Encode _) = _
      rw [base64_roundtrip _ hblt1]⟩
  · intro heq
    exact hcne (base64EncodeString_inj _ _ hblt1 hblt2 heq)

/-- Witness for C6: in the sandbox environment two different eight-byte
paddings of the one-byte password "p" yield two distinct non-empty
credentials. -/
theorem claim_C6_witness :
    ∃ s1 s2 : String,
      getSecurityCredentials .Sandbox [1, 2, 3, 4, 5, 6, 7, 8] "p" = .ok s1 ∧
      getSecurityCredentials .Sandbox [1, 2, 3, 4, 5, 6, 7, 9] "p" = .ok s2 ∧
      s1 ≠ "" ∧ (∃ bytes, base64Decode s1 = some bytes) ∧ s1 ≠ s2 :=
  claim_C6 .Sandbox "p" [1, 2, 3, 4, 5, 6, 7, 8] [1, 2, 3, 4, 5, 6, 7, 9]
    (by decide) (by decide) (by decide) (by decide) (by decide)
    (by decide) (by decide) (by decide)

/-- Claim C8 (amended): only the transaction-status operation validates
URL schemes — it rejects, with a validation error naming the URL and zero
HTTP requests, a payload whose queue-timeout or result URL is not https,
checking the initiator password first — while the other URL-carrying
operations perform no scheme check: B2C (QueueTimeOutURL, ResultURL) and
STKPush (CallBackURL) dispatch to the network regardless of their URL
fields, performing the token fetch plus the operation call. -/
theorem claim_C8 (ck : String) (env : Environment) (now : Clock) (pad : List Nat)
    (auth : AuthNetOutcome) (op : OpNetOutcome) (pwd passkey : String)
    (req : TransactionStatusRequest) (breq : B2CRequest) (preq : STKPushRequest)
    (c : Cache) (ast abody bst bbody : String) (aresp : AuthorizationResponse)
    (resp : GeneralRequestResponse) (hpwd : pwd ≠ "") (hpk : passkey ≠ "")
    (hstale : ∀ r, cacheLookup c ck = some r → r.setAt + accessTokenTTL ≤ now.epoch)
    (hadec : decodeAuthorizationResponse abody = some aresp)
    (hbdec : decodeGeneralRequestResponse bbody = some resp)
    (hfit : ¬ (certificateKey env).size < (utf8Bytes pwd).length + 11) :
    (validateURLScheme req.QueueTimeOutURL = false →
      GetTransactionStatus ck env now auth op pad pwd req c =
        ⟨.error (.urlSchemeError req.QueueTimeOutURL), c, 0⟩) ∧
    (validateURLScheme req.QueueTimeOutURL = true →
      validateURLScheme req.ResultURL = false →
      GetTransactionStatus ck env now auth op pad pwd req c =
        ⟨.error (.urlSchemeError req.ResultURL), c, 0⟩) ∧
    B2C ck env now (.response 200 ast abody) (.response 200 bst bbody) pad pwd breq c =
      ⟨classifyByErrorCode "b2c" resp,
        cacheInsert c ck { aresp with setAt := now.epoch }, 2⟩ ∧
    STKPush ck now (.response 200 ast abody) (.response 200 bst bbody) passkey preq c =
      ⟨classifyByErrorCode "stk push" resp,
        cacheInsert c ck { aresp with setAt := now.epoch }, 2⟩ := by
  refine ⟨?_, ?_, ?_, ?_⟩
  · intro h
    simp [GetTransactionStatus, hpwd, h]
  · intro h1 h2
    simp [GetTransactionStatus, hpwd, h1, h2]
  · simp only [B2C, if_neg hpwd, getSecurityCredentials_eq env pad pwd hpwd hfit,
      makeHttpRequestWithToken,
      genAccessToken_refresh ck now.epoch ast abody aresp c hstale hadec, hbdec]
  · simp only [STKPush, if_neg hpk, makeHttpRequestWithToken,
      genAccessToken_refresh ck now.epoch ast abody aresp c hstale hadec, hbdec]

/-- Witness for C8: the modelled transaction-status operation rejects an
http:// queue-timeout URL and an ftp:// result URL with zero requests,
while concrete B2C and STKPush calls whose URL fields are all http://
dispatch both requests and return success. -/
theorem claim_C8_witness :
    GetTransactionStatus "ck" .Sandbox ⟨0, ⟨2024, 1, 1, 0, 0, 0⟩⟩ (.doError "x")
        (.doError "y") [1, 2, 3, 4, 5, 6, 7, 8] "p"
        ⟨"TransactionStatusQuery", 1, "initiator", "", "", 600000,
          "http://example.com/timeout", "remarks", "https://example.com/result",
          "", "tx-1"⟩ [] =
      ⟨.error (.urlSchemeError "http://example.com/timeout"), [], 0⟩ ∧
    GetTransactionStatus "ck" .Sandbox ⟨0, ⟨2024, 1, 1, 0, 0, 0⟩⟩ (.doError "x")
        (.doError "y") [1, 2, 3, 4, 5, 6, 7, 8] "p"
        ⟨"TransactionStatusQuery", 1, "initiator", "", "", 600000,
          "https://example.com/timeout", "remarks", "ftp://example.com/result",
          "", "tx-1"⟩ [] =
      ⟨.error (.urlSchemeError "ftp://example.com/result"), [], 0⟩ ∧
    B2C "ck" .Sandbox ⟨0, ⟨2024, 1, 1, 0, 0, 0⟩⟩
        (.response 200 "200 OK" "\x7b\"access_token\":\"tok\"\x7d")
        (.response 200 "200 OK" "\x7b\x7d") [1, 2, 3, 4, 5, 6, 7, 8] "p"
        ⟨"initiator", "", "BusinessPayment", 10, 600000, 254708374149, "remarks",
          "http://example.com/timeout", "http://example.com/result", ""⟩ [] =
      ⟨.ok emptyResponse, [("ck", ⟨"tok", "", 0⟩)], 2⟩ ∧
    STKPush "ck" ⟨0, ⟨2024, 1, 1, 0, 0, 0⟩⟩
        (.response 200 "200 OK" "\x7b\"access_token\":\"tok\"\x7d")
        (.response 200 "200 OK" "\x7b\x7d") "passkey"
        ⟨174379, "", "", "CustomerPayBillOnline", 10, 174379, 174379,
          254708374149, "http://example.com/cb", "ref", "desc"⟩ [] =
      ⟨.ok emptyResponse, [("ck", ⟨"tok", "", 0⟩)], 2⟩ := by
  have h1 := claim_C8 "ck" .Sandbox ⟨0, ⟨2024, 1, 1, 0, 0, 0⟩⟩ [1, 2, 3, 4, 5, 6, 7, 8]
    (.doError "x") (.doError "y") "p" "passkey"
    ⟨"TransactionStatusQuery", 1, "initiator", "", "", 600000,
      "http://example.com/timeout", "remarks", "https://example.com/result",
      "", "tx-1"⟩
    ⟨"initiator", "", "BusinessPayment", 10, 600000, 254708374149, "remarks",
      "http://example.com/timeout", "http://example.com/result", ""⟩
    ⟨174379, "", "", "CustomerPayBillOnline", 10, 174379, 174379,
      254708374149, "http://example.com/cb", "ref", "desc"⟩ []
    "200 OK" "\x7b\"access_token\":\"tok\"\x7d" "200 OK" "\x7b\x7d" ⟨"tok", "", 0⟩
    emptyResponse (by decide) (by decide)
    (by intro r hr; simp [cacheLookup] at hr) rfl rfl (by decide)
  have h2 := claim_C8 "ck" .Sandbox ⟨0, ⟨2024, 1, 1, 0, 0, 0⟩⟩ [1, 2, 3, 4, 5, 6, 7, 8]
    (.doError "x") (.doError "y") "p" "passkey"
    ⟨"TransactionStatusQuery", 1, "initiator", "", "", 600000,
      "https://example.com/timeout", "remarks", "ftp://example.com/result",
      "", "tx-1"⟩
    ⟨"initiator", "", "BusinessPayment", 10, 600000, 254708374149, "remarks",
      "http://example.com/timeout", "http://example.com/result", ""⟩
    ⟨174379, "", "", "CustomerPayBillOnline", 10, 174379, 174379,
      254708374149, "http://example.com/cb", "ref", "desc"⟩ []
    "200 OK" "\x7b\"access_token\":\"tok\"\x7d" "200 OK" "\x7b\x7d" ⟨"tok", "", 0⟩
    emptyResponse (by decide) (by decide)
    (by intro r hr; simp [cacheLookup] at hr) rfl rfl (by decide)
  exact ⟨h1.1 (by decide), h2.2.1 (by decide) (by decide), h1.2.2.1, h1.2.2.2⟩

/-- Counterexample for C8 as the spec states it: B2C carries a
queue-timeout URL and a result URL, yet a call whose two URLs both use
the http scheme is not rejected — the token fetch and the operation
dispatch are both performed (two requests on the transport) and the call
returns success, so a dispatch operation with a non-https URL does not
fail before the network. -/
theorem claim_C8_counterexample :
    validateURLScheme "http://example.com/timeout" = false ∧
    validateURLScheme "http://example.com/result" = false ∧
    B2C "ck" .Sandbox ⟨0, ⟨2024, 1, 1, 0, 0, 0⟩⟩
        (.response 200 "200 OK" "\x7b\"access_token\":\"tok\"\x7d")
        (.response 200 "200 OK" "\x7b\x7d") [1, 2, 3, 4, 5, 6, 7, 8] "p"
        ⟨"initiator", "", "BusinessPayment", 10, 600000, 254708374149, "remarks",
          "http://example.com/timeout", "http://example.com/result", ""⟩ [] =
      ⟨.ok emptyResponse, [("ck", ⟨"tok", "", 0⟩)], 2⟩ := by
  refine ⟨by decide, by decide, ?_⟩
  have hfit : ¬ (certificateKey .Sandbox).size < (utf8Bytes "p").length + 11 := by decide
  have hadec : decodeAuthorizationResponse "\x7b\"access_token\":\"tok\"\x7d" =
      some ⟨"tok", "", 0⟩ := rfl
  have hbdec : decodeGeneralRequestResponse "\x7b\x7d" = some emptyResponse := rfl
  simp only [B2C, if_neg (by decide : ("p" : String) ≠ ""),
    getSecurityCredentials_eq .Sandbox [1, 2, 3, 4, 5, 6, 7, 8] "p" (by decide) hfit,
    makeHttpRequestWithToken,
    genAccessToken_refresh "ck" 0 "200 OK" "\x7b\"access_token\":\"tok\"\x7d"
      ⟨"tok", "", 0⟩ [] (by intro r hr; simp [cacheLookup] at hr) hadec, hbdec]
  rfl

end MpesaSdk
